import Mathlib

/-!
# Serene byte code writer

A shallow embedding of `SereneCompiler/ByteCodeWriter.cpp`, the function
`writeByteCode` that serialises compiled byte code as a C source array, and of
`SereneCompiler/SereneCompiler.cpp`, the functions `report`, `analyzeFile`,
`compileFile` and `CompileFile` that drive the Luau front end and compiler.

Conventions of the embedding.

* Text is a `List Char`; every character the program writes is ASCII.
* The buffer behind `const char *str` is a list of octets.  Reading `str[i]`
  with `i` outside the list is undefined behaviour in C; the model then has no
  result (`none`).
* The only branch of the file that compiles is the `_WIN32` one, so the data
  model is the one of the Windows targets: plain `char` is a signed 8-bit
  integer, `int` has 32 bits, `unsigned long long` has 64 bits.
* `fprintf` is interpreted by a small `printf` covering the three conversions
  the file uses (`%d`, `%02x`, `%s`).  The header is printed with `%d` from an
  `unsigned long long`; the conversion then reads the low 32 bits of the
  argument as an `int`, which is what the calling conventions of these targets
  hand it.
* The file system is a map from paths to contents; whether `fopen` succeeds is
  decided by the environment.  The opened stream is buffered: `fprintf` hands
  text to the stream, and the text is written to the disk when the stream is
  flushed, at the latest by `fclose`.  The environment decides up to which byte
  the writes to the disk succeed; the file then holds the text cut at that
  byte and `fclose` fails.  The program looks neither at what `fprintf` nor at
  what `fclose` returns.
* The Luau library and the helpers of `FileUtils.h` are not part of the
  repository.  A run of `SereneCompiler.cpp` takes what they answer from a
  record (`Frontend`, `Toolchain`) and keeps the calls it makes into them in a
  trace.  What is printed on the standard streams is kept as text; printing on
  them does not fail.  The line and column numbers of Luau are `unsigned int`.
-/

namespace Serene

/-! ## Machine integers -/

/-- One octet of memory. -/
abbrev Byte := Fin 256

/-- The value of one octet read through a `const char *`: plain `char` is signed. -/
def charValue (b : Byte) : Int :=
  if b.val < 128 then (b.val : Int) else (b.val : Int) - 256

/-- The low 32 bits of a word read as an `int` (two's complement). -/
def toInt32 (v : Nat) : Int :=
  if v % 2 ^ 32 < 2 ^ 31 then ((v % 2 ^ 32 : Nat) : Int) else ((v % 2 ^ 32 : Nat) : Int) - 2 ^ 32

/-- An `int` read as an `unsigned int`. -/
def toUInt32 (v : Int) : Nat :=
  (v % 2 ^ 32).toNat

/-! ## printf -/

/-- A variadic argument as it is passed to `fprintf`. -/
inductive Arg where
  /-- An `unsigned long long`. -/
  | ull (v : Nat)
  /-- An `int`; a `char` argument arrives as one after the default promotion. -/
  | int (v : Int)
  /-- A `const char *` to a NUL-terminated string. -/
  | str (s : List Char)

/-- Decimal text of an `int`, as `%d` prints it. -/
def showInt (v : Int) : List Char :=
  if v < 0 then '-' :: Nat.toDigits 10 v.natAbs else Nat.toDigits 10 v.natAbs

/-- Hexadecimal text of an `unsigned int`, as `%02x` prints it: lowercase digits,
padded with zeros on the left to a minimum width of two. -/
def showHex02 (v : Nat) : List Char :=
  List.replicate (2 - (Nat.toDigits 16 v).length) '0' ++ Nat.toDigits 16 v

/-- What the conversion `%d` fetches: an `int`.  An `unsigned long long` argument
is read through its low 32 bits. -/
def Arg.fetchInt : Arg → Option Int
  | .ull v => some (toInt32 v)
  | .int v => some v
  | .str _ => none

/-- What the conversion `%x` fetches: an `unsigned int`. -/
def Arg.fetchUInt : Arg → Option Nat
  | .ull v => some (v % 2 ^ 32)
  | .int v => some (toUInt32 v)
  | .str _ => none

/-- What the conversion `%s` fetches: a string. -/
def Arg.fetchStr : Arg → Option (List Char)
  | .str s => some s
  | _ => none

/-- The text `printf` produces from a format and its arguments, for the
conversions `%d`, `%02x` and `%s`; `none` for any other use of `%`. -/
def printf : List Char → List Arg → Option (List Char)
  | [], _ => some []
  | '%' :: 'd' :: fmt, a :: args =>
      match a.fetchInt, printf fmt args with
      | some v, some rest => some (showInt v ++ rest)
      | _, _ => none
  | '%' :: '0' :: '2' :: 'x' :: fmt, a :: args =>
      match a.fetchUInt, printf fmt args with
      | some v, some rest => some (showHex02 v ++ rest)
      | _, _ => none
  | '%' :: 's' :: fmt, a :: args =>
      match a.fetchStr, printf fmt args with
      | some s, some rest => some (s ++ rest)
      | _, _ => none
  | '%' :: _, _ => none
  | c :: fmt, args =>
      match printf fmt args with
      | some rest => some (c :: rest)
      | none => none

/-! ## Files -/

/-- The contents of the files, by path. -/
abbrev Files := String → Option (List Char)

/-- What the program cannot decide: which paths open for writing, and how much
of what is written on the opened stream reaches the disk. -/
structure Env where
  /-- Whether `fopen(path, "wb")` returns a stream. -/
  canOpen : String → Bool
  /-- Whether the write of the byte number `k` (from 0) of the stream to the disk
  succeeds.  The bytes from the first failed one on are lost. -/
  writeOk : Nat → Bool

/-- An open stream: the path and the text handed to it so far.  The stream is
buffered: the text is written to the disk when the stream is flushed, at the
latest by `fclose`. -/
structure FILE where
  path : String
  content : List Char

/-- The call `fopen(name, "wb")`: on success the file is created or truncated to
length zero. -/
def fopen (env : Env) (files : Files) (name : String) : Option FILE × Files :=
  if env.canOpen name then
    (some ⟨name, []⟩, Function.update files name (some []))
  else
    (none, files)

/-- The call `fprintf(file, fmt, args...)`: the formatted text is handed to the
stream.  The value the call returns is dropped by every call in the file and is
not part of the model; a write to the disk that fails, during the call or
later, shows in `reachDisk`. -/
def fprintf (file : FILE) (fmt : List Char) (args : List Arg) : Option FILE :=
  match printf fmt args with
  | some text => some ⟨file.path, file.content ++ text⟩
  | none => none

/-- The bytes of a text that reach the disk, the first byte of the text being the
byte number `k` of the stream: the ones before the first byte whose write
fails. -/
def reachDisk (env : Env) : Nat → List Char → List Char
  | _, [] => []
  | k, c :: cs => if env.writeOk k then c :: reachDisk env (k + 1) cs else []

/-- The call `fclose(file)`: the stream is flushed and closed.  The file holds the
bytes that reached the disk; the flag says whether the call succeeded, which it
does when no byte was lost. -/
def fclose (env : Env) (files : Files) (file : FILE) : Bool × Files :=
  (decide ((reachDisk env 0 file.content).length = file.content.length),
    Function.update files file.path (some (reachDisk env 0 file.content)))

/-! ## ByteCodeWriter.cpp -/

/-- The format string `header`: a raw string literal followed by `"\n\t"`. -/
def header : String :=
  "\n    #ifndef SERENE_BYTECODE\n    #define SERENE_BYTECODE\n\n    #include \"main.h\"\n\n    const size_t BYTECODE_SIZE = %d;\n    const char BYTECODE[] = \x7b\n\n\t"

/-- The string `footer`. -/
def footer : String := "\n\t\x7d;\n\t#endif"

/-- The third argument of the entry's `fprintf`:
`((i+1) % 16 == 0 ? ",\n" : ",")` on `unsigned long long i`. -/
def separator (i : Nat) : List Char :=
  if (i + 1) % 2 ^ 64 % 16 = 0 then [',', '\n'] else [',']

/-- The loop `for (i = 0; i < size; ++i) fprintf(file, "0x%02x%s", str[i], ...)`,
entered at index `i` with `remaining = size - i` iterations to go. -/
def writeEntries (str : List Byte) : Nat → Nat → FILE → Option FILE
  | 0, _, file => some file
  | remaining + 1, i, file =>
      match str[i]? with
      | none => none
      | some b =>
          match fprintf file "0x%02x%s".toList [Arg.int (charValue b), Arg.str (separator i)] with
          | some file1 => writeEntries str remaining (i + 1) file1
          | none => none

/-- The function `writeByteCode(name, str, size)`: the returned flag and the files
afterwards; `none` when the run reads outside the buffer.  The flag `fclose`
returns is dropped, as are the values the calls of `fprintf` return. -/
def writeByteCode (env : Env) (files : Files) (name : String) (str : List Byte) (size : Nat) :
    Option (Bool × Files) :=
  match fopen env files name with
  | (none, files0) => some (false, files0)
  | (some file, files0) =>
      match fprintf file header.toList [Arg.ull size] with
      | none => none
      | some file1 =>
          match writeEntries str size 0 file1 with
          | none => none
          | some file2 =>
              match fprintf file2 "%s".toList [Arg.str footer.toList] with
              | none => none
              | some file3 => some (true, (fclose env files0 file3).2)

/-- An environment where every path opens and every write to the disk succeeds. -/
def Env.healthy : Env := ⟨fun _ => true, fun _ => true⟩

/-- No file exists. -/
def noFiles : Files := fun _ => none

/-! ## The text of the artifact -/

/-- The part of `header` before the conversion `%d`. -/
def headerBefore : List Char :=
  "\n    #ifndef SERENE_BYTECODE\n    #define SERENE_BYTECODE\n\n    #include \"main.h\"\n\n    const size_t BYTECODE_SIZE = ".toList

/-- The part of `header` after the conversion `%d`. -/
def headerAfter : List Char :=
  ";\n    const char BYTECODE[] = \x7b\n\n\t".toList

/-- The literal printed for one octet by `0x%02x`. -/
def hexLiteral (b : Byte) : List Char :=
  '0' :: 'x' :: showHex02 (toUInt32 (charValue b))

/-- The entries of the octets `bs`, the first of them at index `i`. -/
def listing : List Byte → Nat → List Char
  | [], _ => []
  | b :: bs, i => hexLiteral b ++ separator i ++ listing bs (i + 1)

/-- The whole text handed to the stream for a buffer and a count. -/
def artifact (str : List Byte) (size : Nat) : List Char :=
  headerBefore ++ showInt (toInt32 size) ++ headerAfter ++ listing (str.take size) 0
    ++ footer.toList

/-- A line of comma-terminated entries, without a line break. -/
def row (bs : List Byte) : List Char :=
  (bs.map fun b => hexLiteral b ++ [',']).flatten

/-! ## Reading the listing back -/

/-- The value of a hexadecimal digit. -/
def hexDigitValue (c : Char) : Option Nat :=
  if '0' ≤ c ∧ c ≤ '9' then some (c.toNat - '0'.toNat)
  else if 'a' ≤ c ∧ c ≤ 'f' then some (c.toNat - 'a'.toNat + 10)
  else if 'A' ≤ c ∧ c ≤ 'F' then some (c.toNat - 'A'.toNat + 10)
  else none

/-- The reader the round-trip property speaks of; it is not part of the program.
It gives the numbers of the `0x..` literals of a text, in order: a literal is
`0x` followed by its hexadecimal digits and ends at the first other character.
The second argument is the value of the literal being read, if one is. -/
def readLiterals : List Char → Option Nat → List Nat
  | [], none => []
  | [], some v => [v]
  | c :: cs, some v =>
      match hexDigitValue c with
      | some d => readLiterals cs (some (16 * v + d))
      | none => v :: readLiterals cs none
  | '0' :: 'x' :: cs, none => readLiterals cs (some 0)
  | _ :: cs, none => readLiterals cs none

/-- The number a run of hexadecimal digits denotes, after the value `v` read so far. -/
def hexValue (ds : List Char) (v : Nat) : Nat :=
  ds.foldl (fun a c => 16 * a + (hexDigitValue c).getD 0) v

/-! ## Environments used in the examples -/

/-- An environment where every path opens and no write to the disk succeeds. -/
def Env.fullDisk : Env := ⟨fun _ => true, fun _ => false⟩

/-- An environment where only `bytecode.h` opens; every write to the disk succeeds. -/
def Env.onlyByteCodeH : Env := ⟨fun p => p == "bytecode.h", fun _ => true⟩

/-! ## SereneCompiler.cpp: the types of the Luau library

The Luau headers are not part of the repository.  The types below keep of each
Luau type what `SereneCompiler.cpp` reads from it. -/

/-- The struct `Luau::Position`: a line and a column, both `unsigned int`, counted
from 0. -/
structure Position where
  line : Nat
  column : Nat

/-- The struct `Luau::Location`: the positions where a range begins and ends. -/
structure Location where
  begin : Position
  end_ : Position

/-- The struct `Luau::TypeError`, with the module name already made human
readable (`CliFileResolver::getHumanReadableModuleName` returns its argument). -/
structure TypeError where
  moduleName : List Char
  location : Location
  /-- The message of the `SyntaxError` in `error.data`, when it holds one. -/
  syntaxError : Option (List Char)
  /-- The text `Luau::toString(error, ...)`. -/
  text : List Char

/-- The struct `Luau::LintWarning`. -/
structure LintWarning where
  location : Location
  /-- The text `Luau::LintWarning::getName(warning.code)`. -/
  codeName : List Char
  text : List Char

/-- The struct `Luau::CheckResult`. -/
structure CheckResult where
  errors : List TypeError

/-- The struct `Luau::LintResult`. -/
structure LintResult where
  errors : List LintWarning
  warnings : List LintWarning

/-- A `Luau::ParseError` or `Luau::CompileError`: `getLocation()` and `what()`. -/
structure ParseError where
  location : Location
  what : List Char

/-- What `Luau::compileOrThrow` does with a source: it fills the byte code
builder, or throws `Luau::ParseErrors`, or throws `Luau::CompileError`. -/
inductive CompileOutcome where
  | bytecode (bytes : List Byte)
  | parseErrors (errors : List ParseError)
  | compileError (error : ParseError)

/-- The `Luau::Frontend` as the run observes it. -/
structure Frontend where
  /-- The call `frontend.isDirty(name)`. -/
  isDirty : String → Bool
  /-- The call `frontend.check(name)`. -/
  check : String → CheckResult
  /-- Whether `frontend.getSourceModule(name)` is not null, after the check. -/
  hasSourceModule : String → Bool
  /-- The call `frontend.lint(name)`. -/
  lint : String → LintResult
  /-- The text `Luau::transpileWithTypes(*sm->root)` for the module. -/
  annotated : String → List Char

/-- The library and the operating system as `CompileFile` observes them. -/
structure Toolchain where
  /-- The front end built in `CompileFile`. -/
  frontend : Frontend
  /-- The content of `configResolver.configErrors` after the analysis. -/
  configErrors : List (List Char × List Char)
  /-- The call `getParentPath(path)` of `FileUtils.h`. -/
  getParentPath : String → Option String
  /-- The call `readFile(name)` of `FileUtils.h`. -/
  readFile : String → Option (List Char)
  /-- The call `Luau::compileOrThrow(bcb, source, copts())`. -/
  compileOrThrow : List Char → CompileOutcome

/-! ## SereneCompiler.cpp: the state of a run -/

/-- The two standard streams the program prints to. -/
inductive StdStream where
  | stdout
  | stderr

/-- What has been printed on the standard streams. -/
structure Console where
  out : List Char
  err : List Char

/-- A call into the library or the operating system. -/
inductive Call where
  | chdir (path : String)
  | check (name : String)
  | lint (name : String)
  | readFile (name : String)
  | compileOrThrow
  deriving DecidableEq

/-- The state of a run: the standard streams, the files written, and the calls
made so far, in order. -/
structure World where
  console : Console
  files : Files
  trace : List Call

/-- Text appended to one of the standard streams. -/
def Console.write (c : Console) (s : StdStream) (text : List Char) : Console :=
  match s with
  | .stdout => ⟨c.out ++ text, c.err⟩
  | .stderr => ⟨c.out, c.err ++ text⟩

/-- The call `fprintf(stdout, ...)` or `fprintf(stderr, ...)`. -/
def World.fprintf (w : World) (s : StdStream) (fmt : List Char) (args : List Arg) :
    Option World :=
  match printf fmt args with
  | some text => some ⟨w.console.write s text, w.files, w.trace⟩
  | none => none

/-- The statement `std::cout << text`. -/
def World.cout (w : World) (text : List Char) : World :=
  ⟨w.console.write .stdout text, w.files, w.trace⟩

/-- A call recorded at the end of the trace. -/
def World.call (w : World) (c : Call) : World :=
  ⟨w.console, w.files, w.trace ++ [c]⟩

/-! ## SereneCompiler.cpp: error reporting -/

/-- The enum `ReportFormat`. -/
inductive ReportFormat where
  | Default
  | Luacheck
  | Gnu

/-- The expression `v + 1` on an `unsigned int`. -/
def succUInt (v : Nat) : Nat := (v + 1) % 2 ^ 32

/-- An `unsigned int` handed to the conversion `%d`, which reads its 32 bits as
an `int`; the same value results from the initialisation of an `int` with it. -/
def uintAsInt (v : Nat) : Int := toInt32 v

/-- The overload `report(name, location, type, message)`. -/
def reportAt (name : List Char) (location : Location) (type message : List Char) (w : World) :
    Option World :=
  w.fprintf .stderr "%s(%d,%d): %s: %s\n".toList
    [Arg.str name, Arg.int (uintAsInt (succUInt location.begin.line)),
      Arg.int (uintAsInt (succUInt location.begin.column)), Arg.str type, Arg.str message]

/-- The overload `report(format, name, loc, type, message)`. -/
def report (format : ReportFormat) (name : List Char) (loc : Location) (type message : List Char)
    (w : World) : Option World :=
  match format with
  | .Default =>
      w.fprintf .stderr "%s(%d,%d): %s: %s\n".toList
        [Arg.str name, Arg.int (uintAsInt (succUInt loc.begin.line)),
          Arg.int (uintAsInt (succUInt loc.begin.column)), Arg.str type, Arg.str message]
  | .Luacheck =>
      let columnEnd : Int := if loc.begin.line = loc.end_.line then uintAsInt loc.end_.column else 100
      w.fprintf .stdout "%s:%d:%d-%d: (W0) %s: %s\n".toList
        [Arg.str name, Arg.int (uintAsInt (succUInt loc.begin.line)),
          Arg.int (uintAsInt (succUInt loc.begin.column)), Arg.int columnEnd, Arg.str type,
          Arg.str message]
  | .Gnu =>
      w.fprintf .stderr "%s:%d.%d-%d.%d: %s: %s\n".toList
        [Arg.str name, Arg.int (uintAsInt (succUInt loc.begin.line)),
          Arg.int (uintAsInt (succUInt loc.begin.column)),
          Arg.int (uintAsInt (succUInt loc.end_.line)), Arg.int (uintAsInt loc.end_.column),
          Arg.str type, Arg.str message]

/-- The overload `reportError(frontend, format, error)`. -/
def reportTypeError (format : ReportFormat) (error : TypeError) (w : World) : Option World :=
  match error.syntaxError with
  | some message => report format error.moduleName error.location "SyntaxError".toList message w
  | none => report format error.moduleName error.location "TypeError".toList error.text w

/-- The overload `reportError(name, error)` for a `Luau::ParseError`. -/
def reportParseError (name : List Char) (error : ParseError) (w : World) : Option World :=
  reportAt name error.location "SyntaxError".toList error.what w

/-- The overload `reportError(name, error)` for a `Luau::CompileError`. -/
def reportCompileError (name : List Char) (error : ParseError) (w : World) : Option World :=
  reportAt name error.location "CompileError".toList error.what w

/-- The function `reportWarning(format, name, warning)`. -/
def reportWarning (format : ReportFormat) (name : List Char) (warning : LintWarning) (w : World) :
    Option World :=
  report format name warning.location warning.codeName warning.text w

/-- A loop `for (auto &x : xs) f(x)` over a list. -/
def forEach {α : Type} (f : α → World → Option World) : List α → World → Option World
  | [], w => some w
  | x :: xs, w =>
      match f x w with
      | some w1 => forEach f xs w1
      | none => none

/-! ## SereneCompiler.cpp: analysis and compilation -/

/-- The function `analyzeFile(frontend, name, format, annotate)`. -/
def analyzeFile (frontend : Frontend) (name : String) (format : ReportFormat) (annotate : Bool)
    (w : World) : Option (Bool × World) :=
  let cr : CheckResult := if frontend.isDirty name then frontend.check name else ⟨[]⟩
  let w0 : World := if frontend.isDirty name then w.call (.check name) else w
  if frontend.hasSourceModule name = false then
    match w0.fprintf .stderr "Error opening %s\n".toList [Arg.str name.toList] with
    | some w1 => some (false, w1)
    | none => none
  else
    match forEach (reportTypeError format) cr.errors w0 with
    | none => none
    | some w1 =>
        let lr : LintResult := frontend.lint name
        let w2 : World := w1.call (.lint name)
        match forEach (reportWarning format name.toList) lr.errors w2 with
        | none => none
        | some w3 =>
            match forEach (reportWarning format name.toList) lr.warnings w3 with
            | none => none
            | some w4 =>
                match (if annotate then
                    w4.fprintf .stdout "%s".toList [Arg.str (frontend.annotated name)]
                  else some w4) with
                | none => none
                | some w5 => some (cr.errors.isEmpty && lr.errors.isEmpty, w5)

/-- The function `compileFile(name, output_file)` of the library. -/
def compileFile (tc : Toolchain) (env : Env) (name output_file : String) (w : World) :
    Option (Bool × World) :=
  match tc.readFile name with
  | none =>
      match (w.call (.readFile name)).fprintf .stderr "Error opening %s\n".toList
          [Arg.str name.toList] with
      | some w1 => some (false, w1)
      | none => none
  | some source =>
      let w0 : World := (w.call (.readFile name)).call .compileOrThrow
      match tc.compileOrThrow source with
      | .bytecode bytes =>
          match writeByteCode env w0.files output_file bytes bytes.length with
          | some (_, files1) => some (true, ⟨w0.console, files1, w0.trace⟩)
          | none => none
      | .parseErrors errors =>
          match forEach (reportParseError name.toList) errors w0 with
          | some w1 => some (false, w1)
          | none => none
      | .compileError error =>
          match reportCompileError name.toList error w0 with
          | some w1 => some (false, w1)
          | none => none

/-- The loop that prints the recorded configuration errors. -/
def printConfigError (pair : List Char × List Char) (w : World) : Option World :=
  w.fprintf .stderr "%s: %s\n".toList [Arg.str pair.1, Arg.str pair.2]

/-- The exported function `CompileFile(source_file, output_file)`; `none` when
`getParentPath(source_file)` is empty, which the code dereferences. -/
def CompileFile (tc : Toolchain) (env : Env) (source_file output_file : String) (w : World) :
    Option (Bool × World) :=
  match tc.getParentPath source_file with
  | none => none
  | some dir =>
      let w0 : World := ((w.call (.chdir dir)).cout "Starting Script Analysis...\n".toList)
      match analyzeFile tc.frontend source_file .Default false w0 with
      | none => none
      | some (ok, w1) =>
          match (if ok then some (w1.cout "Analyzed files [OK]\n".toList)
              else w1.fprintf .stderr "Analyzed %s [FAILED]\n".toList
                [Arg.str source_file.toList]) with
          | none => none
          | some w2 =>
              let failed : Bool := !ok
              match forEach printConfigError tc.configErrors w2 with
              | none => none
              | some w3 =>
                  if failed then
                    match w3.fprintf .stderr "Compilation terminated.  [ERROR]".toList [] with
                    | some w4 => some (false, w4)
                    | none => none
                  else
                    let w4 : World := w3.cout "Starting Script Compilation...\n".toList
                    match compileFile tc env source_file output_file w4 with
                    | none => none
                    | some (compiled, w5) =>
                        if compiled = false then
                          match w5.fprintf .stderr "Compilation Terminated. [ERROR]".toList [] with
                          | some w6 => some (false, w6)
                          | none => none
                        else
                          some (true, w5.cout "Compilation Successful. [SUCCESS]\n\n".toList)

/-! ## SereneCompiler.cpp: states and tool chains used in the examples -/

/-- A state where nothing has been printed, written or called. -/
def World.empty : World := ⟨⟨[], []⟩, noFiles, []⟩

/-- An environment where no path opens. -/
def Env.readOnly : Env := ⟨fun _ => false, fun _ => true⟩

/-- A front end that has a module for `scripts/main.lua` only, finds no error
and one lint warning. -/
def Frontend.sample : Frontend where
  isDirty := fun _ => true
  check := fun _ => ⟨[]⟩
  hasSourceModule := fun name => name == "scripts/main.lua"
  lint := fun _ => ⟨[], [⟨⟨⟨0, 0⟩, ⟨0, 5⟩⟩, "LocalUnused".toList, "unused".toList⟩]⟩
  annotated := fun _ => []

/-- A tool chain around `Frontend.sample` with one recorded configuration error;
it reads `scripts/main.lua` only and compiles every source to three bytes. -/
def Toolchain.sample : Toolchain where
  frontend := Frontend.sample
  configErrors := [(".luaurc".toList, "unknown key".toList)]
  getParentPath := fun path => if path == "scripts/main.lua" ∨ path == "scripts/none.lua" then
    some "scripts" else none
  readFile := fun name => if name == "scripts/main.lua" then some "return 1".toList else none
  compileOrThrow := fun _ => .bytecode [1, 2, 3]

/-! ## Lemmas on printf and the stream -/

theorem printf_header (size : Nat) :
    printf header.toList [Arg.ull size]
      = some (headerBefore ++ (showInt (toInt32 size) ++ headerAfter)) := rfl

theorem printf_entry (v : Int) (s : List Char) :
    printf "0x%02x%s".toList [Arg.int v, Arg.str s]
      = some ('0' :: 'x' :: (showHex02 (toUInt32 v) ++ s)) := by
  have h : printf "0x%02x%s".toList [Arg.int v, Arg.str s]
      = some ('0' :: 'x' :: (showHex02 (toUInt32 v) ++ (s ++ []))) := rfl
  rw [h, List.append_nil]

theorem printf_footer :
    printf "%s".toList [Arg.str footer.toList] = some footer.toList := by
  have h : printf "%s".toList [Arg.str footer.toList] = some (footer.toList ++ []) := rfl
  rw [h, List.append_nil]

theorem fprintf_header (file : FILE) (size : Nat) :
    fprintf file header.toList [Arg.ull size]
      = some ⟨file.path,
          file.content ++ (headerBefore ++ (showInt (toInt32 size) ++ headerAfter))⟩ := by
  unfold fprintf
  rw [printf_header]

theorem fprintf_entry (file : FILE) (b : Byte) (i : Nat) :
    fprintf file "0x%02x%s".toList [Arg.int (charValue b), Arg.str (separator i)]
      = some ⟨file.path, file.content ++ (hexLiteral b ++ separator i)⟩ := by
  unfold fprintf
  rw [printf_entry]
  rfl

theorem fprintf_footer (file : FILE) :
    fprintf file "%s".toList [Arg.str footer.toList]
      = some ⟨file.path, file.content ++ footer.toList⟩ := by
  unfold fprintf
  rw [printf_footer]

/-! ## Lemmas on the loop and the function -/

theorem writeEntries_eq (str : List Byte) :
    ∀ (n i : Nat) (file : FILE), i + n ≤ str.length →
      writeEntries str n i file
        = some ⟨file.path, file.content ++ listing ((str.drop i).take n) i⟩ := by
  intro n
  induction n with
  | zero => intro i file _; simp [writeEntries, listing]
  | succ n ih =>
      intro i file h
      have hi : i < str.length := by omega
      rw [writeEntries, List.getElem?_eq_getElem hi]
      simp only [fprintf_entry]
      rw [ih (i + 1) _ (by omega)]
      have hd : List.drop i str = str[i] :: List.drop (i + 1) str := by
        exact List.drop_eq_getElem_cons hi
      rw [hd, List.take_succ_cons, listing]
      simp only [List.append_assoc]

theorem writeEntries_congr (s1 s2 : List Byte) :
    ∀ (n i : Nat) (file : FILE), (∀ j, i ≤ j → j < i + n → s1[j]? = s2[j]?) →
      writeEntries s1 n i file = writeEntries s2 n i file := by
  intro n
  induction n with
  | zero => intro i file _; rfl
  | succ n ih =>
      intro i file h
      rw [writeEntries, writeEntries, h i (le_refl i) (by omega)]
      cases s2[i]? with
      | none => rfl
      | some b =>
          simp only [fprintf_entry]
          exact ih (i + 1) _ (fun j h1 h2 => h j (by omega) (by omega))

theorem reachDisk_all (env : Env) (hw : ∀ k, env.writeOk k = true) :
    ∀ (text : List Char) (k : Nat), reachDisk env k text = text := by
  intro text
  induction text with
  | nil => intro k; rfl
  | cons c cs ih => intro k; rw [reachDisk, if_pos (hw k), ih]

theorem reachDisk_take (env : Env) :
    ∀ (text : List Char) (k : Nat),
      ∃ n, n ≤ text.length ∧ reachDisk env k text = text.take n
        ∧ (n = text.length ↔ ∀ j, j < text.length → env.writeOk (k + j) = true) := by
  intro text
  induction text with
  | nil => intro k; exact ⟨0, Nat.le_refl _, rfl, by simp⟩
  | cons c cs ih =>
      intro k
      rw [reachDisk]
      cases hk : env.writeOk k with
      | false =>
          refine ⟨0, Nat.zero_le _, rfl, ?_⟩
          constructor
          · intro h0
            simp only [List.length_cons] at h0
            omega
          · intro hall
            have h0 := hall 0 (by simp)
            rw [Nat.add_zero, hk] at h0
            exact absurd h0 (by simp)
      | true =>
          obtain ⟨n, hn, h, hiff⟩ := ih (k + 1)
          refine ⟨n + 1, by simp only [List.length_cons]; omega, ?_, ?_⟩
          · simp only [if_true, h, List.take_succ_cons]
          · simp only [List.length_cons, Nat.add_right_cancel_iff]
            rw [hiff]
            constructor
            · intro hall j hj
              cases j with
              | zero => exact hk
              | succ j =>
                  have := hall j (by omega)
                  rw [show k + (j + 1) = k + 1 + j by omega]
                  exact this
            · intro hall j hj
              have := hall (j + 1) (by omega)
              rw [show k + (j + 1) = k + 1 + j by omega] at this
              exact this

theorem writeByteCode_closed (env : Env) (files : Files) (name : String) (str : List Byte)
    (size : Nat) (h : env.canOpen name = false) :
    writeByteCode env files name str size = some (false, files) := by
  simp [writeByteCode, fopen, h]

/-- The run of `writeByteCode` on a path that opens and a buffer that holds
`size` bytes: the file is what reaches the disk of the whole text. -/
theorem writeByteCode_opened (env : Env) (files : Files) (name : String) (str : List Byte)
    (size : Nat) (ho : env.canOpen name = true) (h : size ≤ str.length) :
    writeByteCode env files name str size
      = some (true, (fclose env (Function.update files name (some []))
          ⟨name, artifact str size⟩).2) := by
  unfold writeByteCode
  simp only [fopen, ho, if_true, fprintf_header]
  rw [writeEntries_eq str size 0 _ (by omega)]
  simp only [fprintf_footer, List.drop_zero, List.nil_append, artifact, List.append_assoc]

theorem fclose_files (env : Env) (files : Files) (name : String) (text : List Char) :
    (fclose env (Function.update files name (some [])) ⟨name, text⟩).2
      = Function.update files name (some (reachDisk env 0 text)) := by
  simp only [fclose, Function.update_idem]

/-- The run of `writeByteCode` on a path that opens and a buffer that holds
`size` bytes, with the files it leaves written out. -/
theorem writeByteCode_stored (env : Env) (files : Files) (name : String) (str : List Byte)
    (size : Nat) (ho : env.canOpen name = true) (h : size ≤ str.length) :
    writeByteCode env files name str size
      = some (true, Function.update files name (some (reachDisk env 0 (artifact str size)))) := by
  rw [writeByteCode_opened env files name str size ho h, fclose_files]

/-- What `fclose` does with a stream: the file holds the first `n` bytes of the
text, and the call succeeds exactly when these are all of them, which is when
the write of every byte of the text to the disk succeeded. -/
theorem fclose_spec (env : Env) (files : Files) (name : String) (text : List Char) :
    ∃ n, n ≤ text.length
      ∧ fclose env files ⟨name, text⟩
          = (decide (n = text.length), Function.update files name (some (text.take n)))
      ∧ (n = text.length ↔ ∀ k, k < text.length → env.writeOk k = true) := by
  obtain ⟨n, hn, hr, hiff⟩ := reachDisk_take env text 0
  refine ⟨n, hn, ?_, ?_⟩
  · simp only [fclose, hr, List.length_take, Nat.min_eq_left hn]
  · simpa only [Nat.zero_add] using hiff

/-! ## Lemmas on the listing -/


theorem separator_eq (i : Nat) :
    separator i = if (i + 1) % 16 = 0 then [',', '\n'] else [','] := by
  unfold separator
  have h : (i + 1) % 2 ^ 64 % 16 = (i + 1) % 16 := by omega
  rw [h]

set_option maxRecDepth 100000 in
theorem hexLiteral_clean : ∀ b : Byte, '\n' ∉ hexLiteral b ∧ ',' ∉ hexLiteral b := by
  decide

theorem listing_append (a b : List Byte) :
    ∀ i, listing (a ++ b) i = listing a i ++ listing b (i + a.length) := by
  induction a with
  | nil => intro i; simp [listing]
  | cons x a ih =>
      intro i
      have h : i + 1 + a.length = i + (a.length + 1) := by omega
      rw [List.cons_append, listing, listing, ih, h, List.length_cons]
      simp only [List.append_assoc]

theorem row_cons (b : Byte) (bs : List Byte) :
    row (b :: bs) = hexLiteral b ++ ',' :: row bs := by
  simp [row]

theorem row_append (a b : List Byte) : row (a ++ b) = row a ++ row b := by
  simp [row]

theorem newline_not_mem_row (bs : List Byte) : '\n' ∉ row bs := by
  induction bs with
  | nil => simp [row]
  | cons b bs ih =>
      rw [row_cons]
      intro h
      rcases List.mem_append.mp h with h1 | h1
      · exact (hexLiteral_clean b).1 h1
      · rcases List.mem_cons.mp h1 with h2 | h2
        · exact absurd h2 (by decide)
        · exact ih h2

theorem listing_eq_row (bs : List Byte) :
    ∀ i, (∀ j, i ≤ j → j < i + bs.length → (j + 1) % 16 ≠ 0) → listing bs i = row bs := by
  induction bs with
  | nil => intro i _; simp [listing, row]
  | cons b bs ih =>
      intro i h
      have h0 : (i + 1) % 16 ≠ 0 := h i (le_refl i) (by simp)
      rw [listing, row_cons, separator_eq, if_neg h0,
        ih (i + 1) (fun j h1 h2 => h j (by omega) (by simp only [List.length_cons]; omega))]
      simp

theorem listing_full_row (bs : List Byte) (i : Nat) (hl : bs.length = 16) (hi : i % 16 = 0) :
    listing bs i = row bs ++ ['\n'] := by
  have hs : bs = bs.take 15 ++ bs.drop 15 := (List.take_append_drop 15 bs).symm
  have hd : ∃ x, bs.drop 15 = [x] := by
    have : (bs.drop 15).length = 1 := by simp [hl]
    exact List.length_eq_one.mp this
  obtain ⟨x, hx⟩ := hd
  rw [hx] at hs
  have ht : (bs.take 15).length = 15 := by simp [hl]
  rw [hs, listing_append, row_append,
    listing_eq_row (bs.take 15) i (fun j h1 h2 => by rw [ht] at h2; omega), ht]
  have h15 : (i + 15 + 1) % 16 = 0 := by omega
  simp [listing, separator_eq, h15, row]

theorem count_newline_listing (bs : List Byte) :
    ∀ i, (listing bs i).count '\n' = (i + bs.length) / 16 - i / 16 := by
  induction bs with
  | nil => intro i; simp [listing]
  | cons b bs ih =>
      intro i
      have hb : (hexLiteral b).count '\n' = 0 := List.count_eq_zero.mpr (hexLiteral_clean b).1
      rw [listing, List.count_append, List.count_append, hb, ih, separator_eq]
      by_cases h : (i + 1) % 16 = 0
      · rw [if_pos h]
        simp only [List.length_cons]
        have : List.count '\n' [',', '\n'] = 1 := by decide
        rw [this]; omega
      · rw [if_neg h]
        simp only [List.length_cons]
        have : List.count '\n' [','] = 0 := by decide
        rw [this]; omega

/-- The rows of a listing: full rows of sixteen entries, each closed by a line
break, and a last row with the entries that remain. -/
theorem listing_rows : ∀ (k : Nat) (bs : List Byte) (i : Nat), i % 16 = 0 → bs.length / 16 = k →
    listing bs i
      = ((List.range k).map fun r => row ((bs.drop (16 * r)).take 16) ++ ['\n']).flatten
          ++ row (bs.drop (16 * k)) := by
  intro k
  induction k with
  | zero =>
      intro bs i hi hk
      have hl : bs.length < 16 := by omega
      simp only [List.range_zero, List.map_nil, List.flatten_nil, List.nil_append, Nat.mul_zero,
        List.drop_zero]
      exact listing_eq_row bs i (fun j h1 h2 => by omega)
  | succ k ih =>
      intro bs i hi hk
      have hl : 16 ≤ bs.length := by omega
      have ht : (bs.take 16).length = 16 := by simp [hl]
      have hs : listing bs i = listing (bs.take 16 ++ bs.drop 16) i := by
        rw [List.take_append_drop]
      rw [hs, listing_append, listing_full_row _ i ht hi, ht,
        ih (bs.drop 16) (i + 16) (by omega) (by simp only [List.length_drop]; omega)]
      simp only [List.range_succ_eq_map, List.map_cons, List.map_map, List.flatten_cons,
        Nat.mul_zero, List.drop_zero, List.drop_drop, List.append_assoc]
      have e1 : ∀ r, 16 * r + 16 = 16 * (r + 1) := fun r => by omega
      have e2 : ∀ r, 16 + 16 * r = 16 * (r + 1) := fun r => by omega
      simp [Function.comp_def, e1, e2]

/-! ## Further lemmas -/

theorem listing_eq_entries (bs : List Byte) :
    ∀ i, listing bs i
      = ((bs.enumFrom i).map fun p =>
          hexLiteral p.2 ++ ',' :: (if (p.1 + 1) % 16 = 0 then ['\n'] else [])).flatten := by
  induction bs with
  | nil => intro i; rfl
  | cons b bs ih =>
      intro i
      rw [listing, ih (i + 1), separator_eq]
      by_cases h : (i + 1) % 16 = 0 <;> simp [List.enumFrom, h]

theorem showInt_toInt32 (n : Nat) (h : n < 2 ^ 31) : showInt (toInt32 n) = Nat.toDigits 10 n := by
  have h1 : n % 2 ^ 32 = n := Nat.mod_eq_of_lt (by omega)
  have h2 : n % 2 ^ 32 < 2 ^ 31 := by omega
  unfold toInt32
  rw [if_pos h2, h1]
  unfold showInt
  rw [if_neg (by omega)]
  rfl

theorem writeByteCode_congr (env : Env) (files : Files) (name : String) (s1 s2 : List Byte)
    (size : Nat) (h : ∀ j, j < size → s1[j]? = s2[j]?) :
    writeByteCode env files name s1 size = writeByteCode env files name s2 size := by
  unfold writeByteCode
  cases fopen env files name with
  | mk o files0 =>
      cases o with
      | none => rfl
      | some file =>
          simp only
          cases fprintf file header.toList [Arg.ull size] with
          | none => rfl
          | some file1 =>
              simp only
              rw [writeEntries_congr s1 s2 size 0 file1 (fun j _ h2 => h j (by omega))]

theorem writeByteCode_healthy (env : Env) (hw : ∀ k, env.writeOk k = true) (files : Files)
    (name : String) (ho : env.canOpen name = true) (str : List Byte) (size : Nat)
    (h : size ≤ str.length) :
    writeByteCode env files name str size
      = some (true, Function.update files name (some (artifact str size))) := by
  rw [writeByteCode_opened env files name str size ho h, fclose_files,
    reachDisk_all env hw]

/-! ## Lemmas on reading back -/

theorem readLiterals_digits (rest : List Char) :
    ∀ (ds : List Char) (v : Nat), (∀ c ∈ ds, (hexDigitValue c).isSome = true) →
      readLiterals (ds ++ ',' :: rest) (some v) = hexValue ds v :: readLiterals rest none := by
  intro ds
  induction ds with
  | nil =>
      intro v _
      have hc : hexDigitValue ',' = none := by decide
      simp only [List.nil_append, readLiterals, hc, hexValue, List.foldl_nil]
  | cons d ds ih =>
      intro v h
      have hd := h d (List.mem_cons_self d ds)
      obtain ⟨x, hx⟩ := Option.isSome_iff_exists.mp hd
      rw [List.cons_append, readLiterals, hx]
      simp only
      rw [ih (16 * v + x) (fun c hc => h c (List.mem_cons_of_mem d hc))]
      simp [hexValue, hx]

set_option maxRecDepth 100000 in
theorem showHex02_digits : ∀ b : Byte,
    (∀ c ∈ showHex02 (toUInt32 (charValue b)), (hexDigitValue c).isSome = true)
    ∧ hexValue (showHex02 (toUInt32 (charValue b))) 0 = toUInt32 (charValue b) := by
  decide

theorem readLiterals_newline (rest : List Char) :
    readLiterals ('\n' :: rest) none = readLiterals rest none := by
  rw [readLiterals]
  · intro cs h; exact absurd h (by decide)

theorem readLiterals_entry (b : Byte) (i : Nat) (rest : List Char) :
    readLiterals (hexLiteral b ++ separator i ++ rest) none
      = toUInt32 (charValue b) :: readLiterals rest none := by
  have h := showHex02_digits b
  rw [separator_eq]
  by_cases hi : (i + 1) % 16 = 0
  · rw [if_pos hi]
    simp only [hexLiteral, List.cons_append, List.append_assoc, List.nil_append]
    rw [readLiterals, readLiterals_digits _ _ 0 h.1, h.2, readLiterals_newline]
  · rw [if_neg hi]
    simp only [hexLiteral, List.cons_append, List.append_assoc, List.nil_append]
    rw [readLiterals, readLiterals_digits _ _ 0 h.1, h.2]

theorem readLiterals_listing (rest : List Char) (bs : List Byte) :
    ∀ i, readLiterals (listing bs i ++ rest) none
      = bs.map (fun b => toUInt32 (charValue b)) ++ readLiterals rest none := by
  induction bs with
  | nil => intro i; rfl
  | cons b bs ih =>
      intro i
      rw [listing, List.append_assoc, readLiterals_entry, ih]
      rfl

theorem toUInt32_charValue_low (b : Byte) (h : b.val < 128) : toUInt32 (charValue b) = b.val := by
  unfold charValue toUInt32
  rw [if_pos h]
  omega

theorem toUInt32_charValue_high (b : Byte) (h : 128 ≤ b.val) :
    toUInt32 (charValue b) = b.val + 4294967040 := by
  unfold charValue toUInt32
  rw [if_neg (by omega)]
  have := b.isLt
  omega

set_option maxRecDepth 100000 in
theorem hexLiteral_low : ∀ b : Byte, b.val < 128 →
    hexLiteral b = ['0', 'x', Nat.digitChar (b.val / 16), Nat.digitChar (b.val % 16)] := by
  decide

/-- Read back, the listing of a buffer of bytes below `0x80` is the buffer. -/
theorem readLiterals_listing_low (bs : List Byte) (h : ∀ b ∈ bs, b.val < 128) (i : Nat) :
    readLiterals (listing bs i) none = bs.map (fun b => b.val) := by
  have h1 := readLiterals_listing [] bs i
  rw [List.append_nil] at h1
  rw [h1, show readLiterals [] none = [] from rfl, List.append_nil]
  exact List.map_congr_left (fun b hb => toUInt32_charValue_low b (h b hb))

/-! ## The claims -/

set_option maxRecDepth 100000 in
/-- C1, at the buffer holding the single byte `0xff`: the file is written, its
array body holds the literal `0xffffffff`, and read back as a number that literal
is 4294967295 and not the byte 255. -/
theorem writeByteCode_roundtrip_at_0xff :
    (writeByteCode Env.healthy noFiles "bytecode.h" [255] 1).map
        (fun r => (r.1, r.2 "bytecode.h"))
      = some (true, some ("\n    #ifndef SERENE_BYTECODE\n    #define SERENE_BYTECODE\n\n    #include \"main.h\"\n\n    const size_t BYTECODE_SIZE = 1;\n    const char BYTECODE[] = \x7b".toList
          ++ "\n\n\t0xffffffff,\n\t".toList ++ "\x7d;\n\t#endif".toList))
    ∧ readLiterals "\n\n\t0xffffffff,\n\t".toList none = [4294967295]
    ∧ readLiterals "\n\n\t0xffffffff,\n\t".toList none ≠ [255] := by
  refine ⟨?_, ?_, ?_⟩
  · decide
  · decide
  · decide

set_option maxRecDepth 100000 in
/-- C2, at a count of 2^31 with a buffer of 2^31 bytes: the file is written and
the size constant printed in its preamble is `-2147483648`. -/
theorem writeByteCode_size_at_2_pow_31 :
    (writeByteCode Env.healthy noFiles "bytecode.h" (List.replicate 2147483648 0) 2147483648).map
        (fun r => (r.1, r.2 "bytecode.h"))
      = some (true, some ("\n    #ifndef SERENE_BYTECODE\n    #define SERENE_BYTECODE\n\n    #include \"main.h\"\n\n    const size_t BYTECODE_SIZE = -2147483648;\n    const char BYTECODE[] = \x7b\n\n\t".toList
          ++ listing (List.replicate 2147483648 0) 0 ++ footer.toList)) := by
  have hw : ∀ k, Env.healthy.writeOk k = true := fun _ => rfl
  have hl : 2147483648 ≤ (List.replicate 2147483648 (0 : Byte)).length := by
    rw [List.length_replicate]
  rw [writeByteCode_healthy _ hw _ _ rfl _ _ hl]
  have ht : List.take 2147483648 (List.replicate 2147483648 (0 : Byte))
      = List.replicate 2147483648 0 := List.take_of_length_le (by rw [List.length_replicate])
  have hp : headerBefore ++ showInt (toInt32 2147483648) ++ headerAfter
      = "\n    #ifndef SERENE_BYTECODE\n    #define SERENE_BYTECODE\n\n    #include \"main.h\"\n\n    const size_t BYTECODE_SIZE = -2147483648;\n    const char BYTECODE[] = \x7b\n\n\t".toList := by
    decide
  simp only [Option.map_some', artifact, ht, hp, Function.update_same]

set_option maxRecDepth 100000 in
/-- C3, at the byte `0x80`: the entry printed for it is the eleven characters
`0xffffff80,`, a literal of eight hexadecimal digits, and the file holds it so. -/
theorem writeByteCode_entry_at_0x80 :
    printf "0x%02x%s".toList [Arg.int (charValue 128), Arg.str (separator 0)]
      = some "0xffffff80,".toList
    ∧ (writeByteCode Env.healthy noFiles "bytecode.h" [128] 1).map
        (fun r => (r.1, r.2 "bytecode.h"))
      = some (true, some "\n    #ifndef SERENE_BYTECODE\n    #define SERENE_BYTECODE\n\n    #include \"main.h\"\n\n    const size_t BYTECODE_SIZE = 1;\n    const char BYTECODE[] = \x7b\n\n\t0xffffff80,\n\t\x7d;\n\t#endif".toList) := by
  constructor
  · decide
  · decide

/-- C4: `writeByteCode` returns false exactly when the open fails; it then leaves
every file as it was and has a result whatever the buffer; when the open succeeds
and the buffer holds `size` bytes it returns true, whatever happens to the writes. -/
theorem writeByteCode_open_failure (env : Env) (files : Files) (name : String)
    (str : List Byte) (size : Nat) :
    (env.canOpen name = false → writeByteCode env files name str size = some (false, files))
    ∧ (env.canOpen name = true → size ≤ str.length →
        ∃ files1, writeByteCode env files name str size = some (true, files1))
    ∧ (∀ r files1, writeByteCode env files name str size = some (r, files1) →
        (r = false ↔ env.canOpen name = false)) := by
  refine ⟨writeByteCode_closed env files name str size, ?_, ?_⟩
  · intro ho h
    exact ⟨_, writeByteCode_opened env files name str size ho h⟩
  · intro r files1 hr
    cases ho : env.canOpen name with
    | false =>
        rw [writeByteCode_closed env files name str size ho] at hr
        simp only [Option.some.injEq, Prod.mk.injEq] at hr
        simp [← hr.1]
    | true =>
        simp only [writeByteCode, fopen, ho, if_true, fprintf_header] at hr
        split at hr
        · exact absurd hr (by simp)
        · simp only [fprintf_footer, Option.some.injEq, Prod.mk.injEq] at hr
          simp [← hr.1]

/-- C4 on an environment where only `bytecode.h` opens: a path in a missing
directory gives false and no file, `bytecode.h` gives true. -/
theorem writeByteCode_open_failure_witness :
    Env.onlyByteCodeH.canOpen "missing/bytecode.h" = false
    ∧ Env.onlyByteCodeH.canOpen "bytecode.h" = true
    ∧ 1 ≤ ([10] : List Byte).length
    ∧ writeByteCode Env.onlyByteCodeH noFiles "missing/bytecode.h" [10] 1 = some (false, noFiles)
    ∧ ∃ files1, writeByteCode Env.onlyByteCodeH noFiles "bytecode.h" [10] 1 = some (true, files1) :=
  ⟨by decide, by decide, by decide,
    (writeByteCode_open_failure Env.onlyByteCodeH noFiles "missing/bytecode.h" [10] 1).1
      (by decide),
    (writeByteCode_open_failure Env.onlyByteCodeH noFiles "bytecode.h" [10] 1).2.1
      (by decide) (by decide)⟩

/-- C5 refuted: on a device where every write fails, `writeByteCode` still returns
true, and the file it leaves is empty. -/
theorem writeByteCode_true_with_failed_writes :
    (writeByteCode Env.fullDisk noFiles "bytecode.h" [10] 1).map
        (fun r => (r.1, r.2 "bytecode.h"))
      = some (true, some []) := by
  decide

/-- C5 as amended: with a buffer of `size` bytes, `writeByteCode` returns true
exactly when the open succeeds, whatever happens to the writes and to the
close.  When it returns true, the text handed to the stream is the complete
artifact, the preamble `P` printed from `header`, the `size` entries and the
closing guard, and `closed` is the flag of the `fclose` that ends the run: when
the close succeeded the file holds the complete artifact; when it failed the
file holds the artifact cut short at some byte.  The close succeeds exactly
when the write of every byte of the artifact to the disk does. -/
theorem writeByteCode_unchecked_writes (env : Env) (files : Files) (name : String)
    (str : List Byte) (size : Nat) (h : size ≤ str.length) :
    ∃ r files1, writeByteCode env files name str size = some (r, files1)
      ∧ (r = true ↔ env.canOpen name = true)
      ∧ (r = true → ∃ P closed,
          printf header.toList [Arg.ull size] = some P
          ∧ fclose env (Function.update files name (some []))
              ⟨name, P ++ listing (str.take size) 0 ++ footer.toList⟩ = (closed, files1)
          ∧ (closed = true →
              files1 name = some (P ++ listing (str.take size) 0 ++ footer.toList))
          ∧ (closed = false → ∃ n,
              n < (P ++ listing (str.take size) 0 ++ footer.toList).length
              ∧ files1 name
                  = some ((P ++ listing (str.take size) 0 ++ footer.toList).take n))
          ∧ (closed = true ↔ ∀ k,
              k < (P ++ listing (str.take size) 0 ++ footer.toList).length →
              env.writeOk k = true)) := by
  cases ho : env.canOpen name with
  | false =>
      exact ⟨false, files, writeByteCode_closed env files name str size ho, by simp,
        fun hr => absurd hr (by simp)⟩
  | true =>
      have hart : artifact str size
          = headerBefore ++ (showInt (toInt32 size) ++ headerAfter)
              ++ listing (str.take size) 0 ++ footer.toList := by
        simp only [artifact, List.append_assoc]
      obtain ⟨n, hn, hc, hall⟩ := fclose_spec env (Function.update files name (some [])) name
        (headerBefore ++ (showInt (toInt32 size) ++ headerAfter)
          ++ listing (str.take size) 0 ++ footer.toList)
      refine ⟨true, Function.update (Function.update files name (some [])) name
          (some ((headerBefore ++ (showInt (toInt32 size) ++ headerAfter)
            ++ listing (str.take size) 0 ++ footer.toList).take n)), ?_, by simp, fun _ => ?_⟩
      · rw [writeByteCode_opened env files name str size ho h, hart, hc]
      · refine ⟨headerBefore ++ (showInt (toInt32 size) ++ headerAfter), _, printf_header size,
          hc, ?_, ?_, ?_⟩
        · intro hd
          have hnl := of_decide_eq_true hd
          rw [Function.update_same, hnl, List.take_length]
        · intro hd
          have hnl := of_decide_eq_false hd
          exact ⟨n, Nat.lt_of_le_of_ne hn hnl, by rw [Function.update_same]⟩
        · rw [decide_eq_true_iff]
          exact hall

/-- C5 as amended, on a one-byte buffer: on a healthy device the close succeeds
and the file is complete; on a device where every write fails the function
returns true as well, the close fails and the file is cut short. -/
theorem writeByteCode_unchecked_writes_witness :
    1 ≤ ([10] : List Byte).length
    ∧ (∃ r files1, writeByteCode Env.healthy noFiles "bytecode.h" [10] 1 = some (r, files1)
      ∧ (r = true ↔ Env.healthy.canOpen "bytecode.h" = true)
      ∧ (r = true → ∃ P closed,
          printf header.toList [Arg.ull 1] = some P
          ∧ fclose Env.healthy (Function.update noFiles "bytecode.h" (some []))
              ⟨"bytecode.h", P ++ listing (([10] : List Byte).take 1) 0 ++ footer.toList⟩
              = (closed, files1)
          ∧ (closed = true →
              files1 "bytecode.h"
                = some (P ++ listing (([10] : List Byte).take 1) 0 ++ footer.toList))
          ∧ (closed = false → ∃ n,
              n < (P ++ listing (([10] : List Byte).take 1) 0 ++ footer.toList).length
              ∧ files1 "bytecode.h"
                  = some ((P ++ listing (([10] : List Byte).take 1) 0 ++ footer.toList).take n))
          ∧ (closed = true ↔ ∀ k,
              k < (P ++ listing (([10] : List Byte).take 1) 0 ++ footer.toList).length →
              Env.healthy.writeOk k = true)))
    ∧ ∃ r files1, writeByteCode Env.fullDisk noFiles "bytecode.h" [10] 1 = some (r, files1)
      ∧ (r = true ↔ Env.fullDisk.canOpen "bytecode.h" = true) :=
  ⟨by decide,
    writeByteCode_unchecked_writes Env.healthy noFiles "bytecode.h" [10] 1 (by decide),
    (writeByteCode_unchecked_writes Env.fullDisk noFiles "bytecode.h" [10] 1 (by decide)).imp
      fun _ hr => hr.imp fun _ hf => ⟨hf.1, hf.2.1⟩⟩

/-- C6: with every write succeeding, the listing `L` that `writeByteCode` puts
between the preamble and the closing guard is the sequence of the `N` entries,
each a literal without line break followed by a comma, with a line break right
after the comma of the entries whose 1-based position is a multiple of 16 and
nowhere else; it holds `N / 16` line breaks; for `N = 33` it is a row of 16
entries, a line break, a row of 16 entries, a line break and a row of one entry. -/
theorem writeByteCode_line_wrapping (env : Env) (hw : ∀ k, env.writeOk k = true)
    (files : Files) (name : String) (ho : env.canOpen name = true) (str : List Byte) (N : Nat)
    (h : N ≤ str.length) :
    ∃ P L, printf header.toList [Arg.ull N] = some P
      ∧ writeByteCode env files name str N
          = some (true, Function.update files name (some (P ++ L ++ footer.toList)))
      ∧ L = (((str.take N).enum).map fun p =>
              hexLiteral p.2 ++ ',' :: (if (p.1 + 1) % 16 = 0 then ['\n'] else [])).flatten
      ∧ (∀ b, '\n' ∉ hexLiteral b)
      ∧ L.count '\n' = N / 16
      ∧ (N = 33 →
          L = row ((str.take N).take 16) ++ '\n' ::
                (row (((str.take N).drop 16).take 16) ++ '\n' :: row ((str.take N).drop 32))
          ∧ ((str.take N).drop 32).length = 1
          ∧ ∀ bs, '\n' ∉ row bs) := by
  have hlen : (str.take N).length = N := by simp [h]
  refine ⟨headerBefore ++ (showInt (toInt32 N) ++ headerAfter), listing (str.take N) 0,
    printf_header N, ?_, listing_eq_entries (str.take N) 0, fun b => (hexLiteral_clean b).1, ?_, ?_⟩
  · rw [writeByteCode_healthy env hw files name ho str N h, artifact]
    simp only [List.append_assoc]
  · rw [count_newline_listing, hlen]
    simp
  · intro h33
    refine ⟨?_, by rw [List.length_drop, hlen, h33], newline_not_mem_row⟩
    rw [listing_rows 2 (str.take N) 0 rfl (by rw [hlen, h33])]
    simp [List.range_succ]

/-- C6 on a buffer of 33 bytes: two line breaks. -/
theorem writeByteCode_line_wrapping_witness :
    (∀ k, Env.healthy.writeOk k = true)
    ∧ Env.healthy.canOpen "bytecode.h" = true
    ∧ 33 ≤ (List.replicate 33 (10 : Byte)).length
    ∧ ∃ P L, printf header.toList [Arg.ull 33] = some P
      ∧ writeByteCode Env.healthy noFiles "bytecode.h" (List.replicate 33 10) 33
          = some (true, Function.update noFiles "bytecode.h" (some (P ++ L ++ footer.toList)))
      ∧ L.count '\n' = 2 := by
  have hl : 33 ≤ (List.replicate 33 (10 : Byte)).length := by decide
  obtain ⟨P, L, h1, h2, -, -, h3, -⟩ :=
    writeByteCode_line_wrapping Env.healthy (fun _ => rfl) noFiles "bytecode.h" rfl
      (List.replicate 33 10) 33 hl
  exact ⟨fun _ => rfl, rfl, hl, P, L, h1, h2, h3⟩

/-- C7: two buffers that agree on their first `N` bytes give the same result, the
files included; the result is the one of the buffer cut to its first `N` bytes,
where any read at an index from `N` on would have no result; and a buffer of at
least `N` bytes always has a result. -/
theorem writeByteCode_count_authoritative (env : Env) (files : Files) (name : String)
    (b1 b2 : List Byte) (N : Nat) (h : b1.take N = b2.take N) :
    writeByteCode env files name b1 N = writeByteCode env files name b2 N
    ∧ writeByteCode env files name (b1.take N) N = writeByteCode env files name b1 N
    ∧ (N ≤ b1.length → ∃ r files1, writeByteCode env files name b1 N = some (r, files1)) := by
  have key : ∀ s : List Byte, ∀ j, j < N → (s.take N)[j]? = s[j]? := by
    intro s j hj
    rw [List.getElem?_take]
    simp [hj]
  refine ⟨?_, ?_, ?_⟩
  · apply writeByteCode_congr
    intro j hj
    rw [← key b1 j hj, ← key b2 j hj, h]
  · apply writeByteCode_congr
    intro j hj
    exact key b1 j hj
  · intro hl
    cases ho : env.canOpen name with
    | false => exact ⟨false, files, writeByteCode_closed env files name b1 N ho⟩
    | true =>
        exact ⟨true, _, writeByteCode_opened env files name b1 N ho hl⟩

/-- C7 on two buffers of different lengths that agree on their first two bytes. -/
theorem writeByteCode_count_authoritative_witness :
    ([1, 2, 3, 4] : List Byte).take 2 = ([1, 2, 9] : List Byte).take 2
    ∧ writeByteCode Env.healthy noFiles "bytecode.h" [1, 2, 3, 4] 2
        = writeByteCode Env.healthy noFiles "bytecode.h" [1, 2, 9] 2 :=
  ⟨by decide,
    (writeByteCode_count_authoritative Env.healthy noFiles "bytecode.h" [1, 2, 3, 4] [1, 2, 9] 2
      (by decide)).1⟩

set_option maxRecDepth 100000 in
/-- C8: with a count of 0, a path that opens and every write succeeding,
`writeByteCode` returns true and the file holds the preamble, printed with the
size 0, directly followed by the closing guard; between `{` and `};` there are
only line breaks and tabs, so no comma and no literal. -/
theorem writeByteCode_empty_input (env : Env) (hw : ∀ k, env.writeOk k = true) (files : Files)
    (name : String) (ho : env.canOpen name = true) (str : List Byte) :
    ∃ P, printf header.toList [Arg.ull 0] = some P
      ∧ writeByteCode env files name str 0
          = some (true, Function.update files name (some (P ++ footer.toList)))
      ∧ P ++ footer.toList
          = "\n    #ifndef SERENE_BYTECODE\n    #define SERENE_BYTECODE\n\n    #include \"main.h\"\n\n    const size_t BYTECODE_SIZE = 0;\n    const char BYTECODE[] = \x7b".toList
            ++ "\n\n\t\n\t".toList ++ "\x7d;\n\t#endif".toList
      ∧ (∀ c ∈ "\n\n\t\n\t".toList, c = '\n' ∨ c = '\t')
      ∧ ',' ∉ "\n\n\t\n\t".toList
      ∧ readLiterals "\n\n\t\n\t".toList none = [] := by
  refine ⟨headerBefore ++ (showInt (toInt32 0) ++ headerAfter), printf_header 0, ?_,
    by decide, by decide, by decide, by decide⟩
  rw [writeByteCode_healthy env hw files name ho str 0 (Nat.zero_le _), artifact]
  simp [listing]

/-- C8 on a healthy device with no file and an empty buffer. -/
theorem writeByteCode_empty_input_witness :
    (∀ k, Env.healthy.writeOk k = true)
    ∧ Env.healthy.canOpen "bytecode.h" = true
    ∧ ∃ P, printf header.toList [Arg.ull 0] = some P
      ∧ writeByteCode Env.healthy noFiles "bytecode.h" [] 0
          = some (true, Function.update noFiles "bytecode.h" (some (P ++ footer.toList))) := by
  obtain ⟨P, h1, h2, -⟩ :=
    writeByteCode_empty_input Env.healthy (fun _ => rfl) noFiles "bytecode.h" rfl []
  exact ⟨fun _ => rfl, rfl, P, h1, h2⟩

/-- C9: a second call with the same arguments returns the same flag and leaves the
files exactly as the first call left them; the content of the destination after
a call does not depend on the files before it, and with every write succeeding
it is the artifact alone. -/
theorem writeByteCode_idempotent (env : Env) (files : Files) (name : String) (str : List Byte)
    (size : Nat) (h : size ≤ str.length) :
    ∃ r files1, writeByteCode env files name str size = some (r, files1)
      ∧ writeByteCode env files1 name str size = some (r, files1)
      ∧ (env.canOpen name = true →
          (∀ files2, ∃ files3, writeByteCode env files2 name str size = some (r, files3)
            ∧ files3 name = files1 name)
          ∧ ((∀ k, env.writeOk k = true) → files1 name = some (artifact str size))) := by
  cases ho : env.canOpen name with
  | false =>
      exact ⟨false, files, writeByteCode_closed env files name str size ho,
        writeByteCode_closed env files name str size ho, fun hc => absurd hc (by simp)⟩
  | true =>
      refine ⟨true, Function.update files name (some (reachDisk env 0 (artifact str size))),
        writeByteCode_stored env files name str size ho h, ?_, fun _ => ⟨?_, ?_⟩⟩
      · rw [writeByteCode_stored env _ name str size ho h, Function.update_idem]
      · intro files2
        refine ⟨Function.update files2 name (some (reachDisk env 0 (artifact str size))),
          writeByteCode_stored env files2 name str size ho h, ?_⟩
        rw [Function.update_same, Function.update_same]
      · intro hw
        rw [Function.update_same, reachDisk_all env hw]

/-- C9 on a file that already holds other text. -/
theorem writeByteCode_idempotent_witness :
    2 ≤ ([10, 11] : List Byte).length
    ∧ ∃ r files1,
        writeByteCode Env.healthy (Function.update noFiles "bytecode.h" (some ['o', 'l', 'd']))
          "bytecode.h" [10, 11] 2 = some (r, files1)
      ∧ writeByteCode Env.healthy files1 "bytecode.h" [10, 11] 2 = some (r, files1) := by
  have hl : 2 ≤ ([10, 11] : List Byte).length := by decide
  obtain ⟨r, files1, h1, h2, -⟩ :=
    writeByteCode_idempotent Env.healthy
      (Function.update noFiles "bytecode.h" (some ['o', 'l', 'd'])) "bytecode.h" [10, 11] 2 hl
  exact ⟨hl, r, files1, h1, h2⟩

set_option maxRecDepth 1000000 in
/-- C10 refuted on a buffer of 17 bytes: the text starts with a line break and
four spaces, not with `#ifndef` in column 0; the listing comes after an empty
line, its first line starts with a tab and its second line is not indented; the
lines `};` and `#endif` start with a tab and no line break ends the text. -/
theorem writeByteCode_text_of_17_bytes :
    (writeByteCode Env.healthy noFiles "bytecode.h"
        [0, 1, 2, 3, 4, 5, 6, 7, 8, 9, 10, 11, 12, 13, 14, 15, 16] 17).map
        (fun r => (r.1, r.2 "bytecode.h"))
      = some (true, some "\n    #ifndef SERENE_BYTECODE\n    #define SERENE_BYTECODE\n\n    #include \"main.h\"\n\n    const size_t BYTECODE_SIZE = 17;\n    const char BYTECODE[] = \x7b\n\n\t0x00,0x01,0x02,0x03,0x04,0x05,0x06,0x07,0x08,0x09,0x0a,0x0b,0x0c,0x0d,0x0e,0x0f,\n0x10,\n\t\x7d;\n\t#endif".toList)
    ∧ ¬ ("#ifndef SERENE_BYTECODE".toList <+: "\n    #ifndef SERENE_BYTECODE\n    #define SERENE_BYTECODE\n\n    #include \"main.h\"\n\n    const size_t BYTECODE_SIZE = 17;\n    const char BYTECODE[] = \x7b\n\n\t0x00,0x01,0x02,0x03,0x04,0x05,0x06,0x07,0x08,0x09,0x0a,0x0b,0x0c,0x0d,0x0e,0x0f,\n0x10,\n\t\x7d;\n\t#endif".toList) := by
  constructor
  · decide
  · decide

/-- C10 as amended: for a count `N < 2^31`, a buffer of at least `N` bytes, a path
that opens and every write succeeding, the text is: an empty line; the lines
`#ifndef SERENE_BYTECODE`, `#define SERENE_BYTECODE`, empty, `#include "main.h"`,
empty, `const size_t BYTECODE_SIZE = <N in decimal>;`, `const char BYTECODE[] = {`,
each indented by four spaces where not empty; an empty line; a tab; the rows of the
listing, `N / 16` rows of 16 comma-terminated entries each closed by a line break
and a last row of `N % 16` entries, none of them indented; a line break; a tab and
`};`; a line break; a tab and `#endif`, with no line break after it. -/
theorem writeByteCode_file_format (env : Env) (hw : ∀ k, env.writeOk k = true) (files : Files)
    (name : String) (ho : env.canOpen name = true) (str : List Byte) (N : Nat)
    (h : N ≤ str.length) (hN : N < 2 ^ 31) :
    writeByteCode env files name str N
      = some (true, Function.update files name (some (
          "\n    #ifndef SERENE_BYTECODE\n    #define SERENE_BYTECODE\n\n    #include \"main.h\"\n\n    const size_t BYTECODE_SIZE = ".toList
          ++ Nat.toDigits 10 N
          ++ ";\n    const char BYTECODE[] = \x7b\n\n\t".toList
          ++ ((List.range (N / 16)).map fun r =>
                row (((str.take N).drop (16 * r)).take 16) ++ ['\n']).flatten
          ++ row ((str.take N).drop (16 * (N / 16)))
          ++ "\n\t\x7d;\n\t#endif".toList)))
    ∧ (∀ r, r < N / 16 → (((str.take N).drop (16 * r)).take 16).length = 16)
    ∧ ((str.take N).drop (16 * (N / 16))).length = N % 16
    ∧ ∀ bs, '\n' ∉ row bs := by
  have hlen : (str.take N).length = N := by simp [h]
  refine ⟨?_, ?_, ?_, newline_not_mem_row⟩
  · rw [writeByteCode_healthy env hw files name ho str N h, artifact, showInt_toInt32 N hN,
      listing_rows (N / 16) (str.take N) 0 rfl (by rw [hlen])]
    simp only [List.append_assoc]
    rfl
  · intro r hr
    rw [List.length_take, List.length_drop, hlen]
    omega
  · rw [List.length_drop, hlen]
    omega

/-- C10 as amended, on a buffer of 17 bytes. -/
theorem writeByteCode_file_format_witness :
    (∀ k, Env.healthy.writeOk k = true)
    ∧ Env.healthy.canOpen "bytecode.h" = true
    ∧ 17 ≤ (List.replicate 17 (10 : Byte)).length
    ∧ 17 < 2 ^ 31
    ∧ writeByteCode Env.healthy noFiles "bytecode.h" (List.replicate 17 10) 17
      = some (true, Function.update noFiles "bytecode.h" (some (
          "\n    #ifndef SERENE_BYTECODE\n    #define SERENE_BYTECODE\n\n    #include \"main.h\"\n\n    const size_t BYTECODE_SIZE = ".toList
          ++ Nat.toDigits 10 17
          ++ ";\n    const char BYTECODE[] = \x7b\n\n\t".toList
          ++ ((List.range (17 / 16)).map fun r =>
                row ((((List.replicate 17 (10 : Byte)).take 17).drop (16 * r)).take 16)
                  ++ ['\n']).flatten
          ++ row (((List.replicate 17 (10 : Byte)).take 17).drop (16 * (17 / 16)))
          ++ "\n\t\x7d;\n\t#endif".toList))) :=
  ⟨fun _ => rfl, rfl, by decide, by decide,
    (writeByteCode_file_format Env.healthy (fun _ => rfl) noFiles "bytecode.h" rfl
      (List.replicate 17 10) 17 (by decide) (by decide)).1⟩

/-! ## Lemmas on the standard streams and on `analyzeFile` -/

theorem printf_report_default (n t m : List Char) (a b : Int) :
    printf "%s(%d,%d): %s: %s\n".toList [Arg.str n, Arg.int a, Arg.int b, Arg.str t, Arg.str m]
      = some (n ++ ('(' :: (showInt a ++ (',' :: (showInt b ++ (')' :: ':' :: ' ' ::
          (t ++ (':' :: ' ' :: (m ++ ['\n']))))))))) := rfl

theorem printf_report_luacheck (n t m : List Char) (a b c : Int) :
    printf "%s:%d:%d-%d: (W0) %s: %s\n".toList
        [Arg.str n, Arg.int a, Arg.int b, Arg.int c, Arg.str t, Arg.str m]
      = some (n ++ (':' :: (showInt a ++ (':' :: (showInt b ++ ('-' :: (showInt c ++
          (": (W0) ".toList ++ (t ++ (':' :: ' ' :: (m ++ ['\n']))))))))))) := rfl

theorem printf_report_gnu (n t m : List Char) (a b c d : Int) :
    printf "%s:%d.%d-%d.%d: %s: %s\n".toList
        [Arg.str n, Arg.int a, Arg.int b, Arg.int c, Arg.int d, Arg.str t, Arg.str m]
      = some (n ++ (':' :: (showInt a ++ ('.' :: (showInt b ++ ('-' :: (showInt c ++
          ('.' :: (showInt d ++ (':' :: ' ' :: (t ++ (':' :: ' ' :: (m ++ ['\n']))))))))))))) := rfl

theorem printf_error_opening (n : List Char) :
    printf "Error opening %s\n".toList [Arg.str n]
      = some ("Error opening ".toList ++ (n ++ ['\n'])) := rfl

theorem printf_analyzed_failed (n : List Char) :
    printf "Analyzed %s [FAILED]\n".toList [Arg.str n]
      = some ("Analyzed ".toList ++ (n ++ " [FAILED]\n".toList)) := rfl

theorem printf_config_error (a b : List Char) :
    printf "%s: %s\n".toList [Arg.str a, Arg.str b]
      = some (a ++ (':' :: ' ' :: (b ++ ['\n']))) := rfl

theorem printf_string (a : List Char) :
    printf "%s".toList [Arg.str a] = some (a ++ []) := rfl

theorem printf_terminated_analysis :
    printf "Compilation terminated.  [ERROR]".toList []
      = some "Compilation terminated.  [ERROR]".toList := by decide

theorem printf_terminated_compile :
    printf "Compilation Terminated. [ERROR]".toList []
      = some "Compilation Terminated. [ERROR]".toList := by decide

theorem World.fprintf_eq (w : World) (s : StdStream) (fmt : List Char) (args : List Arg)
    (text : List Char) (h : printf fmt args = some text) :
    w.fprintf s fmt args = some ⟨w.console.write s text, w.files, w.trace⟩ := by
  unfold World.fprintf
  rw [h]

/-- A step that prints and does nothing else. -/
theorem World.fprintf_quiet (w : World) (s : StdStream) (fmt : List Char) (args : List Arg)
    (text : List Char) (h : printf fmt args = some text) :
    ∃ w1, w.fprintf s fmt args = some w1 ∧ w1.files = w.files ∧ w1.trace = w.trace :=
  ⟨_, World.fprintf_eq w s fmt args text h, rfl, rfl⟩

theorem reportAt_quiet (name : List Char) (location : Location) (type message : List Char)
    (w : World) :
    ∃ w1, reportAt name location type message w = some w1 ∧ w1.files = w.files
      ∧ w1.trace = w.trace :=
  World.fprintf_quiet w _ _ _ _ (printf_report_default _ _ _ _ _)

theorem report_quiet (format : ReportFormat) (name : List Char) (loc : Location)
    (type message : List Char) (w : World) :
    ∃ w1, report format name loc type message w = some w1 ∧ w1.files = w.files
      ∧ w1.trace = w.trace := by
  cases format with
  | Default => exact World.fprintf_quiet w _ _ _ _ (printf_report_default _ _ _ _ _)
  | Luacheck => exact World.fprintf_quiet w _ _ _ _ (printf_report_luacheck _ _ _ _ _ _)
  | Gnu => exact World.fprintf_quiet w _ _ _ _ (printf_report_gnu _ _ _ _ _ _ _)

theorem reportTypeError_quiet (format : ReportFormat) (error : TypeError) (w : World) :
    ∃ w1, reportTypeError format error w = some w1 ∧ w1.files = w.files
      ∧ w1.trace = w.trace := by
  unfold reportTypeError
  cases error.syntaxError with
  | none => exact report_quiet _ _ _ _ _ w
  | some message => exact report_quiet _ _ _ _ _ w

theorem reportWarning_quiet (format : ReportFormat) (name : List Char) (warning : LintWarning)
    (w : World) :
    ∃ w1, reportWarning format name warning w = some w1 ∧ w1.files = w.files
      ∧ w1.trace = w.trace :=
  report_quiet _ _ _ _ _ w

theorem printConfigError_quiet (pair : List Char × List Char) (w : World) :
    ∃ w1, printConfigError pair w = some w1 ∧ w1.files = w.files ∧ w1.trace = w.trace :=
  World.fprintf_quiet w _ _ _ _ (printf_config_error _ _)

theorem forEach_quiet {α : Type} (f : α → World → Option World)
    (hf : ∀ x w, ∃ w1, f x w = some w1 ∧ w1.files = w.files ∧ w1.trace = w.trace) :
    ∀ (xs : List α) (w : World),
      ∃ w1, forEach f xs w = some w1 ∧ w1.files = w.files ∧ w1.trace = w.trace := by
  intro xs
  induction xs with
  | nil => intro w; exact ⟨w, rfl, rfl, rfl⟩
  | cons x xs ih =>
      intro w
      obtain ⟨w1, h1, hf1, ht1⟩ := hf x w
      obtain ⟨w2, h2, hf2, ht2⟩ := ih w1
      refine ⟨w2, ?_, by rw [hf2, hf1], by rw [ht2, ht1]⟩
      rw [forEach, h1]
      exact h2

/-- The check result `analyzeFile` works with: the one of `frontend.check` when
the file is dirty, an empty one otherwise. -/
theorem analyzeFile_spec (frontend : Frontend) (name : String) (format : ReportFormat)
    (annotate : Bool) (w : World) :
    ∃ w1, analyzeFile frontend name format annotate w
        = some (frontend.hasSourceModule name
            && ((if frontend.isDirty name then frontend.check name else ⟨[]⟩).errors.isEmpty
              && (frontend.lint name).errors.isEmpty), w1)
      ∧ w1.files = w.files
      ∧ w1.trace = w.trace ++ (if frontend.isDirty name then [Call.check name] else [])
          ++ (if frontend.hasSourceModule name then [Call.lint name] else []) := by
  have hw0 : ∀ w0 : World, w0 = (if frontend.isDirty name then w.call (.check name) else w) →
      w0.files = w.files
      ∧ w0.trace = w.trace ++ (if frontend.isDirty name then [Call.check name] else []) := by
    intro w0 h0
    cases hd : frontend.isDirty name <;> simp [h0, hd, World.call]
  obtain ⟨hf0, ht0⟩ := hw0 _ rfl
  unfold analyzeFile
  cases hm : frontend.hasSourceModule name with
  | false =>
      obtain ⟨w1, h1, hf1, ht1⟩ := World.fprintf_quiet
        (if frontend.isDirty name then w.call (.check name) else w) .stderr _ _ _
        (printf_error_opening name.toList)
      refine ⟨w1, ?_, by rw [hf1, hf0], by rw [ht1, ht0]; simp⟩
      simp only [if_true, h1, Bool.false_and]
  | true =>
      obtain ⟨w1, h1, hf1, ht1⟩ := forEach_quiet (reportTypeError format)
        (reportTypeError_quiet format)
        (if frontend.isDirty name then frontend.check name else ⟨[]⟩).errors
        (if frontend.isDirty name then w.call (.check name) else w)
      obtain ⟨w3, h3, hf3, ht3⟩ := forEach_quiet (reportWarning format name.toList)
        (reportWarning_quiet format name.toList) (frontend.lint name).errors
        (w1.call (.lint name))
      obtain ⟨w4, h4, hf4, ht4⟩ := forEach_quiet (reportWarning format name.toList)
        (reportWarning_quiet format name.toList) (frontend.lint name).warnings w3
      have h5 : ∃ w5, (if annotate then
            w4.fprintf .stdout "%s".toList [Arg.str (frontend.annotated name)]
          else some w4) = some w5 ∧ w5.files = w4.files ∧ w5.trace = w4.trace := by
        cases annotate with
        | false => exact ⟨w4, rfl, rfl, rfl⟩
        | true => exact World.fprintf_quiet w4 _ _ _ _ (printf_string _)
      obtain ⟨w5, h5, hf5, ht5⟩ := h5
      refine ⟨w5, ?_, ?_, ?_⟩
      · simp only [Bool.true_eq_false, if_false, h1, h3, h4, h5, Bool.true_and]
      · rw [hf5, hf4, hf3]
        simp only [World.call]
        rw [hf1, hf0]
      · rw [ht5, ht4, ht3]
        simp only [World.call, if_true]
        rw [ht1, ht0]

/-! ## Lemmas on `compileFile` and `CompileFile` -/

theorem writeByteCode_whole_buffer (env : Env) (files : Files) (name : String)
    (bytes : List Byte) :
    ∃ files1, writeByteCode env files name bytes bytes.length = some (env.canOpen name, files1)
      ∧ (env.canOpen name = false → files1 = files) := by
  cases ho : env.canOpen name with
  | false =>
      exact ⟨files, writeByteCode_closed env files name bytes bytes.length ho, fun _ => rfl⟩
  | true =>
      exact ⟨_, writeByteCode_opened env files name bytes bytes.length ho (le_refl _),
        fun h => absurd h (by simp)⟩

theorem compileFile_unreadable (tc : Toolchain) (env : Env) (name output_file : String)
    (w : World) (hr : tc.readFile name = none) :
    ∃ w1, compileFile tc env name output_file w = some (false, w1) ∧ w1.files = w.files
      ∧ w1.trace = w.trace ++ [Call.readFile name] := by
  obtain ⟨w1, h1, hf1, ht1⟩ := World.fprintf_quiet (w.call (.readFile name)) .stderr _ _ _
    (printf_error_opening name.toList)
  refine ⟨w1, ?_, by rw [hf1]; rfl, by rw [ht1]; rfl⟩
  unfold compileFile
  simp only [hr, h1]

theorem compileFile_bytecode (tc : Toolchain) (env : Env) (name output_file : String)
    (w : World) (source : List Char) (bytes : List Byte) (hr : tc.readFile name = some source)
    (hc : tc.compileOrThrow source = .bytecode bytes) :
    ∃ files1, writeByteCode env w.files output_file bytes bytes.length
          = some (env.canOpen output_file, files1)
      ∧ (env.canOpen output_file = false → files1 = w.files)
      ∧ compileFile tc env name output_file w
          = some (true, ⟨w.console, files1, w.trace ++ [Call.readFile name, Call.compileOrThrow]⟩) := by
  obtain ⟨files1, h1, h2⟩ := writeByteCode_whole_buffer env w.files output_file bytes
  refine ⟨files1, h1, h2, ?_⟩
  unfold compileFile
  simp only [hr, hc, World.call, h1, List.append_assoc, List.singleton_append]

theorem compileFile_throws (tc : Toolchain) (env : Env) (name output_file : String)
    (w : World) (source : List Char) (hr : tc.readFile name = some source)
    (hc : ∀ bytes, tc.compileOrThrow source ≠ .bytecode bytes) :
    ∃ w1, compileFile tc env name output_file w = some (false, w1) ∧ w1.files = w.files
      ∧ w1.trace = w.trace ++ [Call.readFile name, Call.compileOrThrow] := by
  unfold compileFile
  simp only [hr]
  cases ho : tc.compileOrThrow source with
  | bytecode bytes => exact absurd ho (hc bytes)
  | parseErrors errors =>
      obtain ⟨w1, h1, hf1, ht1⟩ := forEach_quiet (reportParseError name.toList)
        (fun e w => reportAt_quiet _ _ _ _ w) errors
        ((w.call (.readFile name)).call .compileOrThrow)
      refine ⟨w1, ?_, by rw [hf1]; rfl, by rw [ht1]; simp [World.call]⟩
      simp only [h1]
  | compileError error =>
      obtain ⟨w1, h1, hf1, ht1⟩ := reportAt_quiet name.toList error.location
        "CompileError".toList error.what ((w.call (.readFile name)).call .compileOrThrow)
      refine ⟨w1, ?_, by rw [hf1]; rfl, by rw [ht1]; simp [World.call]⟩
      simp only [reportCompileError, h1]

/-- The flag of `compileFile` does not depend on the state it starts from, and a
run that returns false leaves the files as they were. -/
theorem compileFile_flag (tc : Toolchain) (env : Env) (name output_file : String) :
    ∃ c, (c = true ↔ ∃ source bytes, tc.readFile name = some source
            ∧ tc.compileOrThrow source = .bytecode bytes)
      ∧ ∀ w, ∃ w1, compileFile tc env name output_file w = some (c, w1)
          ∧ (c = false → w1.files = w.files) := by
  cases hr : tc.readFile name with
  | none =>
      refine ⟨false, by simp, fun w => ?_⟩
      obtain ⟨w1, h1, hf1, -⟩ := compileFile_unreadable tc env name output_file w hr
      exact ⟨w1, h1, fun _ => hf1⟩
  | some source =>
      by_cases hb : ∃ bytes, tc.compileOrThrow source = .bytecode bytes
      · obtain ⟨bytes, hc⟩ := hb
        refine ⟨true, by simp [hc], fun w => ?_⟩
        obtain ⟨files1, -, -, h1⟩ := compileFile_bytecode tc env name output_file w source bytes hr hc
        exact ⟨_, h1, fun h => absurd h (by simp)⟩
      · have hc : ∀ bytes, tc.compileOrThrow source ≠ .bytecode bytes :=
          fun bytes h => hb ⟨bytes, h⟩
        refine ⟨false, ?_, fun w => ?_⟩
        · simp only [Bool.false_eq_true, Option.some.injEq, false_iff, not_exists, not_and]
          intro s bytes hs
          rw [← hs]
          exact hc bytes
        · obtain ⟨w1, h1, hf1, -⟩ := compileFile_throws tc env name output_file w source hr hc
          exact ⟨w1, h1, fun _ => hf1⟩

/-- The loop over the recorded configuration errors prints, for each of them in
order, its two texts as `first: second` and a line break on the standard error,
and does nothing else. -/
theorem forEach_printConfigError (errors : List (List Char × List Char)) :
    ∀ w : World, forEach printConfigError errors w
      = some ⟨⟨w.console.out,
          w.console.err ++ (errors.map fun p => p.1 ++ ':' :: ' ' :: (p.2 ++ ['\n'])).flatten⟩,
        w.files, w.trace⟩ := by
  induction errors with
  | nil => intro w; simp [forEach]
  | cons p ps ih =>
      intro w
      have hp : printConfigError p w
          = some ⟨w.console.write .stderr (p.1 ++ ':' :: ' ' :: (p.2 ++ ['\n'])), w.files,
              w.trace⟩ :=
        World.fprintf_eq w _ _ _ _ (printf_config_error _ _)
      rw [forEach, hp]
      simp only
      rw [ih]
      simp only [Console.write, List.map_cons, List.flatten_cons, List.append_assoc]

/-- The run of `CompileFile` after an analysis that returned false. -/
theorem CompileFile_analysis_failed (tc : Toolchain) (env : Env) (source_file output_file : String)
    (w : World) (dir : String) (hp : tc.getParentPath source_file = some dir) (wa : World)
    (ha : analyzeFile tc.frontend source_file .Default false
        ((w.call (.chdir dir)).cout "Starting Script Analysis...\n".toList) = some (false, wa)) :
    ∃ w1, CompileFile tc env source_file output_file w = some (false, w1)
      ∧ w1.files = wa.files ∧ w1.trace = wa.trace
      ∧ w1.console = ⟨wa.console.out,
          wa.console.err ++ ("Analyzed ".toList ++ (source_file.toList ++ " [FAILED]\n".toList))
            ++ (tc.configErrors.map fun p => p.1 ++ ':' :: ' ' :: (p.2 ++ ['\n'])).flatten
            ++ "Compilation terminated.  [ERROR]".toList⟩ := by
  have h2 := World.fprintf_eq wa .stderr _ _ _ (printf_analyzed_failed source_file.toList)
  have h4 : ∀ w3 : World, w3.fprintf .stderr "Compilation terminated.  [ERROR]".toList []
      = some ⟨w3.console.write .stderr "Compilation terminated.  [ERROR]".toList, w3.files,
          w3.trace⟩ :=
    fun w3 => World.fprintf_eq w3 .stderr _ _ _ printf_terminated_analysis
  refine ⟨⟨⟨wa.console.out,
      wa.console.err ++ ("Analyzed ".toList ++ (source_file.toList ++ " [FAILED]\n".toList))
        ++ (tc.configErrors.map fun p => p.1 ++ ':' :: ' ' :: (p.2 ++ ['\n'])).flatten
        ++ "Compilation terminated.  [ERROR]".toList⟩, wa.files, wa.trace⟩, ?_, rfl, rfl, rfl⟩
  unfold CompileFile
  simp only [hp, ha, Bool.false_eq_true, if_false, h2, forEach_printConfigError,
    Bool.not_false, if_true, h4, Console.write]

/-- The run of `CompileFile` after an analysis that returned true: it is the run
of `compileFile` from a state `wc` with the files and the trace the analysis
left. -/
theorem CompileFile_analysis_passed (tc : Toolchain) (env : Env)
    (source_file output_file : String) (w : World) (dir : String)
    (hp : tc.getParentPath source_file = some dir) (wa : World)
    (ha : analyzeFile tc.frontend source_file .Default false
        ((w.call (.chdir dir)).cout "Starting Script Analysis...\n".toList) = some (true, wa)) :
    ∃ wc c w5 w1, wc.files = wa.files ∧ wc.trace = wa.trace
      ∧ compileFile tc env source_file output_file wc = some (c, w5)
      ∧ CompileFile tc env source_file output_file w = some (c, w1)
      ∧ w1.files = w5.files ∧ w1.trace = w5.trace
      ∧ wc.console = ⟨wa.console.out ++ "Analyzed files [OK]\n".toList
            ++ "Starting Script Compilation...\n".toList,
          wa.console.err
            ++ (tc.configErrors.map fun p => p.1 ++ ':' :: ' ' :: (p.2 ++ ['\n'])).flatten⟩
      ∧ w1.console = (if c = true then
            ⟨w5.console.out ++ "Compilation Successful. [SUCCESS]\n\n".toList, w5.console.err⟩
          else ⟨w5.console.out, w5.console.err ++ "Compilation Terminated. [ERROR]".toList⟩) := by
  have h3 := forEach_printConfigError tc.configErrors (wa.cout "Analyzed files [OK]\n".toList)
  obtain ⟨c, -, hc⟩ := compileFile_flag tc env source_file output_file
  obtain ⟨w5, h5, -⟩ := hc (World.cout ⟨⟨(wa.cout "Analyzed files [OK]\n".toList).console.out,
      (wa.cout "Analyzed files [OK]\n".toList).console.err
        ++ (tc.configErrors.map fun p => p.1 ++ ':' :: ' ' :: (p.2 ++ ['\n'])).flatten⟩,
      (wa.cout "Analyzed files [OK]\n".toList).files,
      (wa.cout "Analyzed files [OK]\n".toList).trace⟩ "Starting Script Compilation...\n".toList)
  cases c with
  | false =>
      have h6 := World.fprintf_eq w5 .stderr _ _ _ printf_terminated_compile
      refine ⟨_, false, w5,
        ⟨w5.console.write .stderr "Compilation Terminated. [ERROR]".toList, w5.files, w5.trace⟩,
        ?_, ?_, h5, ?_, rfl, rfl, ?_, ?_⟩
      · rfl
      · rfl
      · unfold CompileFile
        simp only [hp, ha, if_true, h3, Bool.not_true, Bool.false_eq_true, if_false, h5, h6]
      · simp only [World.cout, Console.write, List.append_assoc]
      · simp only [Bool.false_eq_true, if_false, Console.write]
  | true =>
      refine ⟨_, true, w5, w5.cout "Compilation Successful. [SUCCESS]\n\n".toList, ?_, ?_, h5, ?_,
        rfl, rfl, ?_, ?_⟩
      · rfl
      · rfl
      · unfold CompileFile
        simp only [hp, ha, if_true, h3, Bool.not_true, Bool.false_eq_true, if_false, h5,
          Bool.true_eq_false]
      · simp only [World.cout, Console.write, List.append_assoc]
      · simp only [if_true, World.cout, Console.write]

theorem showInt_uintAsInt (v : Nat) (h : v < 2 ^ 31) :
    showInt (uintAsInt v) = Nat.toDigits 10 v :=
  showInt_toInt32 v h

theorem showInt_succUInt (v : Nat) (h : v + 1 < 2 ^ 31) :
    showInt (uintAsInt (succUInt v)) = Nat.toDigits 10 (v + 1) := by
  have h1 : succUInt v = v + 1 := Nat.mod_eq_of_lt (by omega)
  rw [h1]
  exact showInt_toInt32 (v + 1) h

/-- The flag and the files `compileFile` leaves depend on the files it starts
from only, not on what has been printed or called before. -/
theorem compileFile_files_only (tc : Toolchain) (env : Env) (name output_file : String)
    (w w2 : World) (h : w.files = w2.files) :
    ∃ c w1 w3, compileFile tc env name output_file w = some (c, w1)
      ∧ compileFile tc env name output_file w2 = some (c, w3) ∧ w1.files = w3.files := by
  cases hr : tc.readFile name with
  | none =>
      obtain ⟨w1, h1, hf1, -⟩ := compileFile_unreadable tc env name output_file w hr
      obtain ⟨w3, h3, hf3, -⟩ := compileFile_unreadable tc env name output_file w2 hr
      exact ⟨false, w1, w3, h1, h3, by rw [hf1, hf3, h]⟩
  | some source =>
      by_cases hb : ∃ bytes, tc.compileOrThrow source = .bytecode bytes
      · obtain ⟨bytes, hc⟩ := hb
        obtain ⟨f1, e1, -, h1⟩ := compileFile_bytecode tc env name output_file w source bytes hr hc
        obtain ⟨f3, e3, -, h3⟩ := compileFile_bytecode tc env name output_file w2 source bytes hr hc
        refine ⟨true, _, _, h1, h3, ?_⟩
        rw [h, e3] at e1
        simp only [Option.some.injEq, Prod.mk.injEq, true_and] at e1
        exact e1.symm
      · have hc : ∀ bytes, tc.compileOrThrow source ≠ .bytecode bytes :=
          fun bytes hh => hb ⟨bytes, hh⟩
        obtain ⟨w1, h1, hf1, -⟩ := compileFile_throws tc env name output_file w source hr hc
        obtain ⟨w3, h3, hf3, -⟩ := compileFile_throws tc env name output_file w2 source hr hc
        exact ⟨false, w1, w3, h1, h3, by rw [hf1, hf3, h]⟩

/-! ## The claims on SereneCompiler.cpp -/

set_option maxRecDepth 100000 in
/-- C11 refuted: for a location that begins on the stored line 2147483647,
`report` with `ReportFormat::Luacheck` prints the line as `-2147483648`, not as
2147483648; for one that ends on the stored line and column 4294967295 the Gnu
format prints the end line as `0` and the end column as `-1`. -/
theorem report_beyond_int :
    (report .Luacheck "main.lua".toList ⟨⟨2147483647, 4⟩, ⟨2147483647, 9⟩⟩ "TypeError".toList
        "bad".toList World.empty).map (fun w => (w.console.out, w.console.err))
      = some ("main.lua:-2147483648:5-9: (W0) TypeError: bad\n".toList, [])
    ∧ (report .Gnu "main.lua".toList ⟨⟨2, 4⟩, ⟨4294967295, 4294967295⟩⟩ "TypeError".toList
        "bad".toList World.empty).map (fun w => (w.console.out, w.console.err))
      = some ([], "main.lua:3.5-0.-1: TypeError: bad\n".toList) := by
  constructor
  · decide
  · decide

/-- C11 as amended: for a location whose begin line and begin column, counted from 1, are
below 2^31, `report` with `ReportFormat::Luacheck` prints on the standard
output the name, the begin line plus one, the begin column plus one and, as end
column, the stored end column unchanged (it too below 2^31) when the location
begins and ends on the same line, and 100 when it does not; with
`ReportFormat::Gnu` it prints on the standard error the end line plus one and
the stored end column unchanged. -/
theorem report_luacheck_and_gnu (name : List Char) (loc : Location) (type message : List Char)
    (w : World) (hl : loc.begin.line + 1 < 2 ^ 31) (hc : loc.begin.column + 1 < 2 ^ 31) :
    (loc.begin.line = loc.end_.line → loc.end_.column < 2 ^ 31 →
      report .Luacheck name loc type message w
        = some ⟨⟨w.console.out ++ (name ++ ':' :: (Nat.toDigits 10 (loc.begin.line + 1)
            ++ ':' :: (Nat.toDigits 10 (loc.begin.column + 1)
            ++ '-' :: (Nat.toDigits 10 loc.end_.column
            ++ (": (W0) ".toList ++ (type ++ ':' :: ' ' :: (message ++ ['\n']))))))),
          w.console.err⟩, w.files, w.trace⟩)
    ∧ (loc.begin.line ≠ loc.end_.line →
      report .Luacheck name loc type message w
        = some ⟨⟨w.console.out ++ (name ++ ':' :: (Nat.toDigits 10 (loc.begin.line + 1)
            ++ ':' :: (Nat.toDigits 10 (loc.begin.column + 1)
            ++ '-' :: ("100".toList
            ++ (": (W0) ".toList ++ (type ++ ':' :: ' ' :: (message ++ ['\n']))))))),
          w.console.err⟩, w.files, w.trace⟩)
    ∧ (loc.end_.line + 1 < 2 ^ 31 → loc.end_.column < 2 ^ 31 →
      report .Gnu name loc type message w
        = some ⟨⟨w.console.out, w.console.err ++ (name ++ ':' ::
            (Nat.toDigits 10 (loc.begin.line + 1)
            ++ '.' :: (Nat.toDigits 10 (loc.begin.column + 1)
            ++ '-' :: (Nat.toDigits 10 (loc.end_.line + 1)
            ++ '.' :: (Nat.toDigits 10 loc.end_.column
            ++ ':' :: ' ' :: (type ++ ':' :: ' ' :: (message ++ ['\n'])))))))⟩,
          w.files, w.trace⟩) := by
  refine ⟨?_, ?_, ?_⟩
  · intro hs he
    unfold report
    simp only [if_pos hs]
    rw [World.fprintf_eq w _ _ _ _ (printf_report_luacheck _ _ _ _ _ _),
      showInt_succUInt _ hl, showInt_succUInt _ hc, showInt_uintAsInt _ he]
    rfl
  · intro hs
    unfold report
    simp only [if_neg hs]
    rw [World.fprintf_eq w _ _ _ _ (printf_report_luacheck _ _ _ _ _ _),
      showInt_succUInt _ hl, showInt_succUInt _ hc]
    rfl
  · intro hel hec
    unfold report
    simp only
    rw [World.fprintf_eq w _ _ _ _ (printf_report_gnu _ _ _ _ _ _ _),
      showInt_succUInt _ hl, showInt_succUInt _ hc, showInt_succUInt _ hel,
      showInt_uintAsInt _ hec]
    rfl

/-- C11 on a location stored as line 2, columns 4 to 9, and on one that runs from
line 2 to line 5. -/
theorem report_luacheck_and_gnu_witness :
    (2 : Nat) + 1 < 2 ^ 31 ∧ (4 : Nat) + 1 < 2 ^ 31
    ∧ report .Luacheck "main.lua".toList ⟨⟨2, 4⟩, ⟨2, 9⟩⟩ "TypeError".toList "bad".toList
        World.empty
      = some ⟨⟨"main.lua:3:5-9: (W0) TypeError: bad\n".toList, []⟩, noFiles, []⟩
    ∧ report .Luacheck "main.lua".toList ⟨⟨2, 4⟩, ⟨5, 1⟩⟩ "TypeError".toList "bad".toList
        World.empty
      = some ⟨⟨"main.lua:3:5-100: (W0) TypeError: bad\n".toList, []⟩, noFiles, []⟩
    ∧ report .Gnu "main.lua".toList ⟨⟨2, 4⟩, ⟨5, 1⟩⟩ "TypeError".toList "bad".toList
        World.empty
      = some ⟨⟨[], "main.lua:3.5-6.1: TypeError: bad\n".toList⟩, noFiles, []⟩ :=
  ⟨by decide, by decide,
    (report_luacheck_and_gnu "main.lua".toList ⟨⟨2, 4⟩, ⟨2, 9⟩⟩ "TypeError".toList "bad".toList
      World.empty (by decide) (by decide)).1 rfl (by decide),
    (report_luacheck_and_gnu "main.lua".toList ⟨⟨2, 4⟩, ⟨5, 1⟩⟩ "TypeError".toList "bad".toList
      World.empty (by decide) (by decide)).2.1 (by decide),
    (report_luacheck_and_gnu "main.lua".toList ⟨⟨2, 4⟩, ⟨5, 1⟩⟩ "TypeError".toList "bad".toList
      World.empty (by decide) (by decide)).2.2 (by decide) (by decide)⟩

/-- C12: when the source is read and `compileOrThrow` fills the byte code builder,
`compileFile` returns true whatever `writeByteCode` returned: the flag of
`writeByteCode` is the one of the open and is dropped.  When the output path
does not open, `writeByteCode` returns false, `compileFile` returns true all the
same and no file has changed; `CompileFile` then returns true as well, after an
analysis that returned true, with the files as they were before the call. -/
theorem compileFile_discards_writeByteCode (tc : Toolchain) (env : Env)
    (name output_file : String) (w : World) (source : List Char) (bytes : List Byte)
    (hr : tc.readFile name = some source) (hc : tc.compileOrThrow source = .bytecode bytes) :
    (∃ files1, writeByteCode env w.files output_file bytes bytes.length
          = some (env.canOpen output_file, files1)
      ∧ compileFile tc env name output_file w
          = some (true, ⟨w.console, files1, w.trace ++ [Call.readFile name, Call.compileOrThrow]⟩)
      ∧ (env.canOpen output_file = false → files1 = w.files))
    ∧ (env.canOpen output_file = false → ∀ dir wa, tc.getParentPath name = some dir →
        analyzeFile tc.frontend name .Default false
          ((w.call (.chdir dir)).cout "Starting Script Analysis...\n".toList) = some (true, wa) →
        ∃ w1, CompileFile tc env name output_file w = some (true, w1) ∧ w1.files = w.files) := by
  constructor
  · obtain ⟨files1, h1, h2, h3⟩ := compileFile_bytecode tc env name output_file w source bytes hr hc
    exact ⟨files1, h1, h3, h2⟩
  · intro ho dir wa hp ha
    obtain ⟨wc, c, w5, w1, hcf, -, h5, h1, hf1, -⟩ :=
      CompileFile_analysis_passed tc env name output_file w dir hp wa ha
    obtain ⟨files1, -, h2, h3⟩ := compileFile_bytecode tc env name output_file wc source bytes hr hc
    rw [h3] at h5
    simp only [Option.some.injEq, Prod.mk.injEq] at h5
    obtain ⟨w0, hw0, hwf, -⟩ := analyzeFile_spec tc.frontend name .Default false
      ((w.call (.chdir dir)).cout "Starting Script Analysis...\n".toList)
    rw [ha] at hw0
    simp only [Option.some.injEq, Prod.mk.injEq] at hw0
    refine ⟨w1, by rw [h1, ← h5.1], ?_⟩
    rw [hf1, ← h5.2]
    simp only
    rw [h2 ho, hcf, hw0.2, hwf]
    rfl

set_option maxRecDepth 100000 in
/-- C12 on the sample tool chain with an output path that does not open:
`writeByteCode` returns false, `compileFile` and `CompileFile` return true. -/
theorem compileFile_discards_writeByteCode_witness :
    Toolchain.sample.readFile "scripts/main.lua" = some "return 1".toList
    ∧ Toolchain.sample.compileOrThrow "return 1".toList = .bytecode [1, 2, 3]
    ∧ Env.readOnly.canOpen "missing/bytecode.h" = false
    ∧ (writeByteCode Env.readOnly noFiles "missing/bytecode.h" [1, 2, 3] 3).map Prod.fst
        = some false
    ∧ (∃ w1, compileFile Toolchain.sample Env.readOnly "scripts/main.lua" "missing/bytecode.h"
          World.empty = some (true, w1) ∧ w1.files = noFiles)
    ∧ ∃ w1, CompileFile Toolchain.sample Env.readOnly "scripts/main.lua" "missing/bytecode.h"
          World.empty = some (true, w1) ∧ w1.files = noFiles := by
  have h := compileFile_discards_writeByteCode Toolchain.sample Env.readOnly "scripts/main.lua"
    "missing/bytecode.h" World.empty "return 1".toList [1, 2, 3] (by decide) rfl
  obtain ⟨⟨files1, -, h2, h3⟩, h4⟩ := h
  obtain ⟨wa, ha, -⟩ := analyzeFile_spec Toolchain.sample.frontend "scripts/main.lua" .Default
    false ((World.empty.call (.chdir "scripts")).cout "Starting Script Analysis...\n".toList)
  refine ⟨by decide, rfl, rfl, by decide, ⟨_, h2, h3 rfl⟩, ?_⟩
  exact h4 rfl "scripts" wa (by decide) ha

/-- C13: for a source file with a parent path, `CompileFile` has a result `r`,
and with `a` the flag `analyzeFile` returns for it and `wa` the state it leaves:
when `a` is false, `r` is false, the files are as before the call and the calls
made are the `chdir` and those of the analysis, so neither `readFile` nor
`compileOrThrow`, with which `compileFile` begins; when `a` is true, `r` is the
flag `compileFile` then returns and the files are the ones it leaves.  In both
cases the recorded configuration errors are printed on the standard error, one
line `first: second` each, in order, right after what the analysis printed
there (and the line on the failed analysis); `r` and the files are the same
whatever configuration errors were recorded. -/
theorem CompileFile_result (tc : Toolchain) (env : Env) (source_file output_file : String)
    (w : World) (dir : String) (hp : tc.getParentPath source_file = some dir) :
    ∃ r w1 a wa, CompileFile tc env source_file output_file w = some (r, w1)
      ∧ analyzeFile tc.frontend source_file .Default false
          ((w.call (.chdir dir)).cout "Starting Script Analysis...\n".toList) = some (a, wa)
      ∧ (a = false → r = false ∧ w1.files = w.files
          ∧ w1.trace = w.trace ++ [Call.chdir dir]
              ++ (if tc.frontend.isDirty source_file then [Call.check source_file] else [])
              ++ (if tc.frontend.hasSourceModule source_file then [Call.lint source_file] else [])
          ∧ w1.console = ⟨wa.console.out,
              wa.console.err
                ++ ("Analyzed ".toList ++ (source_file.toList ++ " [FAILED]\n".toList))
                ++ (tc.configErrors.map fun p => p.1 ++ ':' :: ' ' :: (p.2 ++ ['\n'])).flatten
                ++ "Compilation terminated.  [ERROR]".toList⟩)
      ∧ (a = true → ∃ wc c w5, wc.files = w.files
          ∧ wc.console = ⟨wa.console.out ++ "Analyzed files [OK]\n".toList
                ++ "Starting Script Compilation...\n".toList,
              wa.console.err
                ++ (tc.configErrors.map fun p => p.1 ++ ':' :: ' ' :: (p.2 ++ ['\n'])).flatten⟩
          ∧ compileFile tc env source_file output_file wc = some (c, w5)
          ∧ r = c ∧ w1.files = w5.files
          ∧ w1.console = (if c = true then
                ⟨w5.console.out ++ "Compilation Successful. [SUCCESS]\n\n".toList,
                  w5.console.err⟩
              else ⟨w5.console.out, w5.console.err ++ "Compilation Terminated. [ERROR]".toList⟩))
      ∧ (r = true ↔ a = true
          ∧ ∀ wc, ∃ w5, compileFile tc env source_file output_file wc = some (true, w5))
      ∧ ∀ errors, ∃ w2,
          CompileFile ⟨tc.frontend, errors, tc.getParentPath, tc.readFile, tc.compileOrThrow⟩ env
            source_file output_file w = some (r, w2)
          ∧ w2.files = w1.files := by
  obtain ⟨wa, ha, hfa, hta⟩ := analyzeFile_spec tc.frontend source_file .Default false
    ((w.call (.chdir dir)).cout "Starting Script Analysis...\n".toList)
  have hfa2 : wa.files = w.files := by rw [hfa]; rfl
  have hta2 : wa.trace = w.trace ++ [Call.chdir dir]
      ++ (if tc.frontend.isDirty source_file then [Call.check source_file] else [])
      ++ (if tc.frontend.hasSourceModule source_file then [Call.lint source_file] else []) := by
    rw [hta]; rfl
  obtain ⟨c0, -, hflag⟩ := compileFile_flag tc env source_file output_file
  generalize hA : (tc.frontend.hasSourceModule source_file
      && ((if tc.frontend.isDirty source_file then tc.frontend.check source_file
            else ⟨[]⟩).errors.isEmpty
        && (tc.frontend.lint source_file).errors.isEmpty)) = a at ha
  cases a with
  | false =>
      obtain ⟨w1, h1, hf1, ht1, hc1⟩ :=
        CompileFile_analysis_failed tc env source_file output_file w dir hp wa ha
      refine ⟨false, w1, false, wa, h1, ha,
        fun _ => ⟨rfl, by rw [hf1, hfa2], by rw [ht1, hta2], hc1⟩,
        fun h => absurd h (by simp), by simp, fun errors => ?_⟩
      obtain ⟨w2, h2, hf2, -⟩ := CompileFile_analysis_failed
        ⟨tc.frontend, errors, tc.getParentPath, tc.readFile, tc.compileOrThrow⟩ env source_file
        output_file w dir hp wa ha
      exact ⟨w2, h2, by rw [hf2, hf1]⟩
  | true =>
      obtain ⟨wc, c, w5, w1, hcf, -, h5, h1, hf1, -, hcc, hc1⟩ :=
        CompileFile_analysis_passed tc env source_file output_file w dir hp wa ha
      refine ⟨c, w1, true, wa, h1, ha, fun h => absurd h (by simp),
        fun _ => ⟨wc, c, w5, by rw [hcf, hfa2], hcc, h5, rfl, hf1, hc1⟩, ?_, fun errors => ?_⟩
      · obtain ⟨w6, h6, -⟩ := hflag wc
        rw [h5] at h6
        simp only [Option.some.injEq, Prod.mk.injEq] at h6
        constructor
        · intro hc
          refine ⟨rfl, fun wc2 => ?_⟩
          obtain ⟨w7, h7, -⟩ := hflag wc2
          rw [← h6.1, hc] at h7
          exact ⟨w7, h7⟩
        · intro hall
          obtain ⟨w7, h7⟩ := hall.2 wc
          rw [h5] at h7
          simp only [Option.some.injEq, Prod.mk.injEq] at h7
          exact h7.1
      · obtain ⟨wc2, c2, w52, w2, hcf2, -, h52, h2, hf2, -⟩ := CompileFile_analysis_passed
          ⟨tc.frontend, errors, tc.getParentPath, tc.readFile, tc.compileOrThrow⟩ env source_file
          output_file w dir hp wa ha
        have h52b : compileFile tc env source_file output_file wc2 = some (c2, w52) := h52
        obtain ⟨c3, u1, u2, e1, e2, e3⟩ :=
          compileFile_files_only tc env source_file output_file wc wc2 (by rw [hcf, hcf2])
        rw [h5] at e1
        rw [h52b] at e2
        simp only [Option.some.injEq, Prod.mk.injEq] at e1 e2
        refine ⟨w2, by rw [h2, e2.1, ← e1.1], ?_⟩
        rw [hf2, hf1, e2.2, e1.2, e3]

set_option maxRecDepth 100000 in
/-- C13 on the sample tool chain, which has one recorded configuration error:
`scripts/main.lua` is analysed and compiled and `CompileFile` returns true;
`scripts/none.lua` has no source module, `CompileFile` returns false, no file
is written, and the standard error holds the line of the configuration error
between the one on the failed analysis and the closing message. -/
theorem CompileFile_result_witness :
    Toolchain.sample.getParentPath "scripts/main.lua" = some "scripts"
    ∧ Toolchain.sample.getParentPath "scripts/none.lua" = some "scripts"
    ∧ (∃ w1, CompileFile Toolchain.sample Env.healthy "scripts/main.lua" "bytecode.h" World.empty
        = some (true, w1))
    ∧ ∃ w1, CompileFile Toolchain.sample Env.healthy "scripts/none.lua" "bytecode.h" World.empty
        = some (false, w1) ∧ w1.files = noFiles
        ∧ w1.console.err = "Error opening scripts/none.lua\nAnalyzed scripts/none.lua [FAILED]\n.luaurc: unknown key\nCompilation terminated.  [ERROR]".toList := by
  have hp : Toolchain.sample.getParentPath "scripts/main.lua" = some "scripts" := by decide
  have hq : Toolchain.sample.getParentPath "scripts/none.lua" = some "scripts" := by decide
  refine ⟨hp, hq, ?_, ?_⟩
  · obtain ⟨r, w1, a, wa, h1, ha, -, -, hr, -⟩ :=
      CompileFile_result Toolchain.sample Env.healthy "scripts/main.lua" "bytecode.h" World.empty
        "scripts" hp
    obtain ⟨wa2, ha2, -⟩ := analyzeFile_spec Toolchain.sample.frontend "scripts/main.lua" .Default
      false ((World.empty.call (.chdir "scripts")).cout "Starting Script Analysis...\n".toList)
    rw [ha] at ha2
    simp only [Option.some.injEq, Prod.mk.injEq] at ha2
    have hatrue : a = true := by rw [ha2.1]; decide
    have hrt : r = true := by
      refine hr.mpr ⟨hatrue, fun wc => ?_⟩
      obtain ⟨files1, -, -, h3⟩ := compileFile_bytecode Toolchain.sample Env.healthy
        "scripts/main.lua" "bytecode.h" wc "return 1".toList [1, 2, 3] (by decide) rfl
      exact ⟨_, h3⟩
    rw [hrt] at h1
    exact ⟨w1, h1⟩
  · obtain ⟨r, w1, a, wa, h1, ha, hfalse, -, -, -⟩ :=
      CompileFile_result Toolchain.sample Env.healthy "scripts/none.lua" "bytecode.h" World.empty
        "scripts" hq
    have hev : analyzeFile Toolchain.sample.frontend "scripts/none.lua" .Default false
        ((World.empty.call (.chdir "scripts")).cout "Starting Script Analysis...\n".toList)
        = some (false, ⟨⟨"Starting Script Analysis...\n".toList,
            "Error opening scripts/none.lua\n".toList⟩, noFiles,
            [Call.chdir "scripts", Call.check "scripts/none.lua"]⟩) := by
      rfl
    rw [hev] at ha
    simp only [Option.some.injEq, Prod.mk.injEq] at ha
    obtain ⟨hr, hf, -, hc⟩ := hfalse ha.1.symm
    rw [hr] at h1
    refine ⟨w1, h1, hf, ?_⟩
    rw [hc, ← ha.2]
    decide

/-- C14: `analyzeFile` has a result; it is true exactly when the front end has a
source module for the file, the error list of the check result `cr` is empty
(the one of `frontend.check` when the file is dirty; the check is not run and
the list is empty when it is not) and the error list of the lint result is
empty.  The flag is the same whatever the lint warnings are.  When the source
module is missing the flag is false and `frontend.lint` has not been called. -/
theorem analyzeFile_result (frontend : Frontend) (name : String) (format : ReportFormat)
    (annotate : Bool) (w : World) :
    ∃ r w1, analyzeFile frontend name format annotate w = some (r, w1)
      ∧ (r = true ↔ frontend.hasSourceModule name = true
          ∧ (if frontend.isDirty name then frontend.check name else ⟨[]⟩).errors = []
          ∧ (frontend.lint name).errors = [])
      ∧ (∀ warnings : String → List LintWarning, ∃ w2,
          analyzeFile ⟨frontend.isDirty, frontend.check, frontend.hasSourceModule,
              fun n => ⟨(frontend.lint n).errors, warnings n⟩, frontend.annotated⟩
            name format annotate w = some (r, w2))
      ∧ (frontend.hasSourceModule name = false → r = false
          ∧ w1.trace = w.trace ++ (if frontend.isDirty name then [Call.check name] else [])
          ∧ Call.lint name ∉ (if frontend.isDirty name then [Call.check name] else [])) := by
  obtain ⟨w1, h1, -, ht1⟩ := analyzeFile_spec frontend name format annotate w
  refine ⟨_, w1, h1, ?_, fun warnings => ?_, fun hm => ?_⟩
  · simp only [Bool.and_eq_true, List.isEmpty_iff]
  · obtain ⟨w2, h2, -, -⟩ := analyzeFile_spec ⟨frontend.isDirty, frontend.check,
      frontend.hasSourceModule, fun n => ⟨(frontend.lint n).errors, warnings n⟩,
      frontend.annotated⟩ name format annotate w
    exact ⟨w2, h2⟩
  · refine ⟨by rw [hm]; rfl, by rw [ht1, hm]; simp, ?_⟩
    cases frontend.isDirty name <;> simp

end Serene
